import Mathlib

/-!
Shallow embedding of the kube-sentry-controller reconciliation core.

Source of the embedding:
* Sentry API entity types and the in-memory fake client:
  src/pkg/sentry/client.go and src/pkg/sentry/fake.go (the name-update
  methods UpdateTeamName / UpdateProjectName / UpdateClientKeyName are taken
  from the second revision of the fake contained in src/pkg/sentry/client.go).
* The reconciler set, finalizer helpers and secret projection:
  the revision of the reconciler in package sentrycontroller contained in
  src/pkg/controller/reconciler_test.go (lines 1010-1338), which is the
  revision the specification describes (cross-object references, finalizer
  retained on delete failure, 404 tolerated on delete).

The Go code is stateful; every operation is modelled by explicit state
passing.  The Kubernetes object store (the controller-runtime fake client
used by the tests) is modelled as a partial map from namespace+name keys to
objects; its Get returns the stored object or not-found, Update replaces the
object stored under the key given by the object's own metadata, Create adds
a new object.  The sentry client is modelled as a record of operations over
an abstract client state, exactly mirroring the sentry.Client interface as
consumed by the reconcilers; the Fake provides the concrete instance.
Reconcile attempts additionally return a trace of the mutating calls they
issue, in order, so that ordering and write-count properties can be stated.
-/

namespace KubeSentry

/-! ### Sentry API entity types (src/pkg/sentry/client.go) -/

namespace Sentry

structure Organization where
  slug : String
  deriving Repr, DecidableEq

structure Team where
  slug : String
  name : String
  deriving Repr, DecidableEq

structure Project where
  slug : String
  name : String
  deriving Repr, DecidableEq

structure ClientKeyDSN where
  secret : String
  public : String
  csp : String
  deriving Repr, DecidableEq

structure ClientKey where
  id : String
  name : String
  dsn : ClientKeyDSN
  deriving Repr, DecidableEq

/-- Transport status attached to delete results; the reconciler inspects
`resp.StatusCode` on delete calls only. -/
structure Resp where
  statusCode : Nat
  deriving Repr, DecidableEq

/-- The subset of the sentry.Client interface consumed by the reconcilers,
over an abstract client state.  Operations that the reconciler only checks
for an error return Except; name updates return an optional error; deletes
return the transport status together with an optional error. -/
structure Client (σ : Type) where
  getOrganization : String → σ → Except String Organization × σ
  getTeam : String → String → σ → Except String Team × σ
  createTeam : String → String → String → σ → Except String Team × σ
  updateTeamName : String → String → String → σ → Option String × σ
  deleteTeam : String → String → σ → (Resp × Option String) × σ
  getProject : String → String → σ → Except String Project × σ
  createProject : String → String → String → String → σ → Except String Project × σ
  updateProjectName : String → String → String → σ → Option String × σ
  deleteProject : String → String → σ → (Resp × Option String) × σ
  getClientKeys : String → String → σ → Except String (List ClientKey) × σ
  createClientKey : String → String → String → σ → Except String ClientKey × σ
  updateClientKeyName : String → String → String → String → σ → Option String × σ
  deleteClientKey : String → String → String → σ → (Resp × Option String) × σ

/-! ### The in-memory fake (src/pkg/sentry/fake.go) -/

/-- In-memory fake state: entities stored in ordered sequences. -/
structure Fake where
  orgs : List Organization
  teams : List Team
  projects : List Project
  clientKeys : List ClientKey
  deriving Repr, DecidableEq

/-- Slug derivation used by CreateTeam and CreateProject when no slug is
given: lowercase the name and replace spaces with dashes. -/
def slugify (name : String) : String :=
  (name.toLower).replace " " "-"

def Fake.getOrganization (s : Fake) (slug : String) : Except String Organization :=
  match s.orgs.find? (fun o => o.slug == slug) with
  | some o => .ok o
  | none => .error "organization not found"

def Fake.getTeam (s : Fake) (slug : String) : Except String Team :=
  match s.teams.find? (fun t => t.slug == slug) with
  | some t => .ok t
  | none => .error "team not found"

def Fake.createTeam (s : Fake) (name slug : String) : Team × Fake :=
  let slug := if slug = "" then slugify name else slug
  let t : Team := { name := name, slug := slug }
  (t, { s with teams := s.teams ++ [t] })

/-- Rename the first team with the given slug (from the fake revision in
src/pkg/sentry/client.go); returns the not-found error when absent. -/
def setTeamName : List Team → String → String → Option (List Team)
  | [], _, _ => none
  | t :: ts, slug, name =>
    if t.slug = slug then some ({ t with name := name } :: ts)
    else
      match setTeamName ts slug name with
      | some ts1 => some (t :: ts1)
      | none => none

def Fake.updateTeamName (s : Fake) (slug name : String) : Option String × Fake :=
  match setTeamName s.teams slug name with
  | some ts => (none, { s with teams := ts })
  | none => (some "team not found", s)

def Fake.deleteTeam (s : Fake) (slug : String) : (Resp × Option String) × Fake :=
  if s.teams.any (fun t => t.slug == slug) then
    ((⟨204⟩, none), { s with teams := s.teams.filter (fun t => t.slug != slug) })
  else
    ((⟨404⟩, some "team not found"), s)

def Fake.getProject (s : Fake) (slug : String) : Except String Project :=
  match s.projects.find? (fun p => p.slug == slug) with
  | some p => .ok p
  | none => .error "project not found"

/-- CreateProject from src/pkg/sentry/fake.go: the referenced team must
exist upstream, otherwise a 404 not-found error is returned. -/
def Fake.createProject (s : Fake) (team name slug : String) :
    Except String Project × Fake :=
  if s.teams.any (fun t => t.slug == team) then
    let slug := if slug = "" then slugify name else slug
    let p : Project := { name := name, slug := slug }
    (.ok p, { s with projects := s.projects ++ [p] })
  else
    (.error "team not found", s)

/-- Rename the first project with the given slug. -/
def setProjectName : List Project → String → String → Option (List Project)
  | [], _, _ => none
  | p :: ps, slug, name =>
    if p.slug = slug then some ({ p with name := name } :: ps)
    else
      match setProjectName ps slug name with
      | some ps1 => some (p :: ps1)
      | none => none

def Fake.updateProjectName (s : Fake) (slug name : String) : Option String × Fake :=
  match setProjectName s.projects slug name with
  | some ps => (none, { s with projects := ps })
  | none => (some "project not found", s)

def Fake.deleteProject (s : Fake) (slug : String) : (Resp × Option String) × Fake :=
  if s.projects.any (fun p => p.slug == slug) then
    ((⟨200⟩, none), { s with projects := s.projects.filter (fun p => p.slug != slug) })
  else
    ((⟨404⟩, some "project not found"), s)

/-- GetClientKeys: only the project's existence is checked; the entire
stored key sequence is returned, never filtered by project. -/
def Fake.getClientKeys (s : Fake) (proj : String) : Except String (List ClientKey) :=
  if s.projects.any (fun p => p.slug == proj) then .ok s.clientKeys
  else .error "project not found"

/-- CreateClientKey: the project must exist; the new key receives the
numeric id (number of currently stored keys) + 1 and the fixed credential
triple, and is appended to the stored sequence. -/
def Fake.createClientKey (s : Fake) (proj name : String) :
    Except String ClientKey × Fake :=
  if s.projects.any (fun p => p.slug == proj) then
    let k : ClientKey :=
      { id := toString (s.clientKeys.length + 1)
        name := name
        dsn := { secret := "secret", csp := "csp", public := "public" } }
    (.ok k, { s with clientKeys := s.clientKeys ++ [k] })
  else
    (.error "project not found", s)

/-- Rename the first key with the given id. -/
def setKeyName : List ClientKey → String → String → Option (List ClientKey)
  | [], _, _ => none
  | k :: ks, id, name =>
    if k.id = id then some ({ k with name := name } :: ks)
    else
      match setKeyName ks id name with
      | some ks1 => some (k :: ks1)
      | none => none

def Fake.updateClientKeyName (s : Fake) (proj id name : String) :
    Option String × Fake :=
  if s.projects.any (fun p => p.slug == proj) then
    match setKeyName s.clientKeys id name with
    | some ks => (none, { s with clientKeys := ks })
    | none => (some "client key not found", s)
  else
    (some "project not found", s)

/-- DeleteClientKey: keys are looked up by id only (no project check);
absent keys yield a 404, present keys are removed from the sequence. -/
def Fake.deleteClientKey (s : Fake) (id : String) : (Resp × Option String) × Fake :=
  if s.clientKeys.any (fun k => k.id == id) then
    ((⟨200⟩, none), { s with clientKeys := s.clientKeys.filter (fun k => k.id != id) })
  else
    ((⟨404⟩, some "client key not found"), s)

/-- The Fake packaged as an instance of the client interface (organization
and, where unused by the fake, org arguments are ignored exactly as in the
Go fake methods, which never read their org parameter). -/
def Fake.client : Client Fake where
  getOrganization := fun slug s => (s.getOrganization slug, s)
  getTeam := fun _org slug s => (s.getTeam slug, s)
  createTeam := fun _org name slug s =>
    let r := s.createTeam name slug
    (.ok r.1, r.2)
  updateTeamName := fun _org slug name s => s.updateTeamName slug name
  deleteTeam := fun _org slug s => s.deleteTeam slug
  getProject := fun _org slug s => (s.getProject slug, s)
  createProject := fun _org team name slug s => s.createProject team name slug
  updateProjectName := fun _org slug name s => s.updateProjectName slug name
  deleteProject := fun _org slug s => s.deleteProject slug
  getClientKeys := fun _org proj s => (s.getClientKeys proj, s)
  createClientKey := fun _org proj name s => s.createClientKey proj name
  updateClientKeyName := fun _org proj id name s => s.updateClientKeyName proj id name
  deleteClientKey := fun _org _proj id s => s.deleteClientKey id

end Sentry

/-! ### Kubernetes object model (src/pkg/apis/sentry/v1alpha1, metav1) -/

/-- Object store key: namespace and name. -/
abbrev ObjKey := String × String

/-- The slice of metav1.ObjectMeta the reconcilers read and write.
`deletionTimestamp = true` models a non-zero deletion timestamp. -/
structure ObjectMeta where
  ns : String
  name : String
  deletionTimestamp : Bool
  finalizers : List String
  deriving Repr, DecidableEq

/-- Store key given by an object's own metadata. -/
def ObjectMeta.key (m : ObjectMeta) : ObjKey := (m.ns, m.name)

namespace v1alpha1

structure TeamSpec where
  name : String
  deriving Repr, DecidableEq

structure TeamStatus where
  slug : String
  deriving Repr, DecidableEq

structure Team where
  meta : ObjectMeta
  spec : TeamSpec
  status : TeamStatus
  deriving Repr, DecidableEq

structure TeamReference where
  ns : String
  name : String
  deriving Repr, DecidableEq

structure ProjectSpec where
  name : String
  teamRef : TeamReference
  deriving Repr, DecidableEq

structure ProjectStatus where
  slug : String
  deriving Repr, DecidableEq

structure Project where
  meta : ObjectMeta
  spec : ProjectSpec
  status : ProjectStatus
  deriving Repr, DecidableEq

structure ProjectReference where
  ns : String
  name : String
  deriving Repr, DecidableEq

structure ClientKeySpec where
  name : String
  projectRef : ProjectReference
  deriving Repr, DecidableEq

structure ClientKeyStatus where
  id : String
  project : String
  deriving Repr, DecidableEq

structure ClientKey where
  meta : ObjectMeta
  spec : ClientKeySpec
  status : ClientKeyStatus
  deriving Repr, DecidableEq

end v1alpha1

/-- The three data entries of the derived corev1.Secret, under the fixed
keys dsn.public, dsn.secret, dsn.csp; DeepEqual on the data map is equality
of this record. -/
structure SecretData where
  dsnPublic : String
  dsnSecret : String
  dsnCsp : String
  deriving Repr, DecidableEq

/-- The derived Secret; ownerRef models the controller owner reference set
on creation (the owning ClientKey's store key). -/
structure Secret where
  ns : String
  name : String
  data : SecretData
  ownerRef : Option ObjKey
  deriving Repr, DecidableEq

def Secret.key (s : Secret) : ObjKey := (s.ns, s.name)

/-- The object store consumed through the kubernetes client: a partial map
from namespace+name to objects, per kind. -/
structure KubeState where
  teams : ObjKey → Option v1alpha1.Team
  projects : ObjKey → Option v1alpha1.Project
  clientKeys : ObjKey → Option v1alpha1.ClientKey
  secrets : ObjKey → Option Secret

/-- kube.Update / kube.Create for a Team: store under the object's own
metadata key. -/
def KubeState.putTeam (k : KubeState) (t : v1alpha1.Team) : KubeState :=
  { k with teams := fun q => if q = t.meta.key then some t else k.teams q }

def KubeState.putProject (k : KubeState) (p : v1alpha1.Project) : KubeState :=
  { k with projects := fun q => if q = p.meta.key then some p else k.projects q }

def KubeState.putClientKey (k : KubeState) (c : v1alpha1.ClientKey) : KubeState :=
  { k with clientKeys := fun q => if q = c.meta.key then some c else k.clientKeys q }

def KubeState.putSecret (k : KubeState) (s : Secret) : KubeState :=
  { k with secrets := fun q => if q = s.key then some s else k.secrets q }

/-! ### Finalizer helpers (reconciler_test.go lines 1321-1338) -/

/-- The fixed finalizer marker constant. -/
def finalizerName : String := "sentry.sr.github.com"

/-- hasFinalizer: membership test by exact string match against the marker. -/
def hasFinalizer (fins : List String) : Bool :=
  fins.any (fun f => f == finalizerName)

/-- removeFinalizer: rebuild the list keeping every finalizer that is not
the marker (the loop appends each f with f != finalizerName). -/
def removeFinalizer (fins : List String) : List String :=
  fins.filter (fun f => f != finalizerName)

/-! ### Reconcile attempts (reconciler_test.go lines 1042-1319)

Each attempt returns its result (reconcile error or success), the updated
object store, the updated sentry client state, and the ordered trace of the
mutating calls it issued. -/

/-- Mutating effects recorded by a reconcile attempt, in call order.
`kubeUpdate` is a persist of the reconciled object itself, carrying the
finalizer list being persisted; secretCreate/secretUpdate are the writes of
the derived Secret; the sentry events are the external mutations. -/
inductive Ev where
  | kubeUpdate (finalizers : List String)
  | secretCreate
  | secretUpdate
  | sentryCreate
  | sentryUpdate
  | sentryDelete
  deriving Repr, DecidableEq

/-- Outcome of one reconcile attempt. -/
structure RecOut (σ : Type) where
  res : Except String Unit
  kube : KubeState
  sentry : σ
  trace : List Ev

namespace reconcilerSet

open Sentry

/-- reconcilerSet.Team of package sentrycontroller. -/
def Team {σ : Type} (c : Client σ) (orgSlug : String) (req : ObjKey)
    (kube : KubeState) (s : σ) : RecOut σ :=
  match kube.teams req with
  | none => ⟨.ok (), kube, s, []⟩
  | some inst =>
    match c.getOrganization orgSlug s with
    | (.error e, s₁) => ⟨.error ("failed to get organization: " ++ e), kube, s₁, []⟩
    | (.ok org, s₁) =>
      if inst.meta.deletionTimestamp then
        if hasFinalizer inst.meta.finalizers = false then
          ⟨.ok (), kube, s₁, []⟩
        else
          let finish : σ → List Ev → RecOut σ := fun s₂ tr =>
            let inst₁ : v1alpha1.Team :=
              { inst with
                status := ⟨""⟩
                meta := { inst.meta with finalizers := removeFinalizer inst.meta.finalizers } }
            ⟨.ok (), kube.putTeam inst₁, s₂, tr ++ [.kubeUpdate inst₁.meta.finalizers]⟩
          if inst.status.slug = "" then
            finish s₁ []
          else
            match c.deleteTeam org.slug inst.status.slug s₁ with
            | ((resp, some e), s₂) =>
              if resp.statusCode ≠ 404 then
                ⟨.error ("failed to delete team: " ++ e), kube, s₂, [.sentryDelete]⟩
              else
                finish s₂ [.sentryDelete]
            | ((_, none), s₂) => finish s₂ [.sentryDelete]
      else
        let ensured : KubeState × v1alpha1.Team × List Ev :=
          if hasFinalizer inst.meta.finalizers then (kube, inst, [])
          else
            let inst₁ : v1alpha1.Team :=
              { inst with
                meta := { inst.meta with finalizers := inst.meta.finalizers ++ [finalizerName] } }
            (kube.putTeam inst₁, inst₁, [Ev.kubeUpdate inst₁.meta.finalizers])
        let kube₁ := ensured.1
        let inst₁ := ensured.2.1
        let tr₁ := ensured.2.2
        if inst₁.status.slug = "" then
          match c.createTeam org.slug inst₁.spec.name "" s₁ with
          | (.error e, s₂) =>
            ⟨.error ("failed to create team: " ++ e), kube₁, s₂, tr₁ ++ [.sentryCreate]⟩
          | (.ok team, s₂) =>
            let inst₂ : v1alpha1.Team := { inst₁ with status := ⟨team.slug⟩ }
            ⟨.ok (), kube₁.putTeam inst₂, s₂,
              tr₁ ++ [.sentryCreate, .kubeUpdate inst₂.meta.finalizers]⟩
        else
          match c.getTeam org.slug inst₁.status.slug s₁ with
          | (.error e, s₂) => ⟨.error ("failed to get team: " ++ e), kube₁, s₂, tr₁⟩
          | (.ok team, s₂) =>
            if team.name = inst₁.spec.name then ⟨.ok (), kube₁, s₂, tr₁⟩
            else
              match c.updateTeamName org.slug team.slug inst₁.spec.name s₂ with
              | (none, s₃) => ⟨.ok (), kube₁, s₃, tr₁ ++ [.sentryUpdate]⟩
              | (some e, s₃) => ⟨.error e, kube₁, s₃, tr₁ ++ [.sentryUpdate]⟩

/-- reconcilerSet.Project of package sentrycontroller. -/
def Project {σ : Type} (c : Client σ) (orgSlug : String) (req : ObjKey)
    (kube : KubeState) (s : σ) : RecOut σ :=
  match kube.projects req with
  | none => ⟨.ok (), kube, s, []⟩
  | some inst =>
    match c.getOrganization orgSlug s with
    | (.error e, s₁) => ⟨.error ("failed to get organization: " ++ e), kube, s₁, []⟩
    | (.ok org, s₁) =>
      if inst.meta.deletionTimestamp then
        if hasFinalizer inst.meta.finalizers = false then
          ⟨.ok (), kube, s₁, []⟩
        else
          let finish : σ → List Ev → RecOut σ := fun s₂ tr =>
            let inst₁ : v1alpha1.Project :=
              { inst with
                status := ⟨""⟩
                meta := { inst.meta with finalizers := removeFinalizer inst.meta.finalizers } }
            ⟨.ok (), kube.putProject inst₁, s₂, tr ++ [.kubeUpdate inst₁.meta.finalizers]⟩
          if inst.status.slug = "" then
            finish s₁ []
          else
            match c.deleteProject org.slug inst.status.slug s₁ with
            | ((resp, some e), s₂) =>
              if resp.statusCode ≠ 404 then
                ⟨.error ("failed to delete project: " ++ e), kube, s₂, [.sentryDelete]⟩
              else
                finish s₂ [.sentryDelete]
            | ((_, none), s₂) => finish s₂ [.sentryDelete]
      else
        let ensured : KubeState × v1alpha1.Project × List Ev :=
          if hasFinalizer inst.meta.finalizers then (kube, inst, [])
          else
            let inst₁ : v1alpha1.Project :=
              { inst with
                meta := { inst.meta with finalizers := inst.meta.finalizers ++ [finalizerName] } }
            (kube.putProject inst₁, inst₁, [Ev.kubeUpdate inst₁.meta.finalizers])
        let kube₁ := ensured.1
        let inst₁ := ensured.2.1
        let tr₁ := ensured.2.2
        match kube₁.teams (inst₁.spec.teamRef.ns, inst₁.spec.teamRef.name) with
        | none =>
          ⟨.error "failed to get team referenced by teamRef", kube₁, s₁, tr₁⟩
        | some kubeTeam =>
          if inst₁.status.slug = "" then
            match c.createProject org.slug kubeTeam.status.slug inst₁.spec.name "" s₁ with
            | (.error e, s₂) =>
              ⟨.error ("failed to create project: " ++ e), kube₁, s₂, tr₁ ++ [.sentryCreate]⟩
            | (.ok proj, s₂) =>
              let inst₂ : v1alpha1.Project := { inst₁ with status := ⟨proj.slug⟩ }
              ⟨.ok (), kube₁.putProject inst₂, s₂,
                tr₁ ++ [.sentryCreate, .kubeUpdate inst₂.meta.finalizers]⟩
          else
            match c.getProject org.slug inst₁.status.slug s₁ with
            | (.error e, s₂) => ⟨.error ("failed to get project: " ++ e), kube₁, s₂, tr₁⟩
            | (.ok proj, s₂) =>
              if proj.name = inst₁.spec.name then ⟨.ok (), kube₁, s₂, tr₁⟩
              else
                match c.updateProjectName org.slug proj.slug inst₁.spec.name s₂ with
                | (none, s₃) => ⟨.ok (), kube₁, s₃, tr₁ ++ [.sentryUpdate]⟩
                | (some e, s₃) =>
                  ⟨.error ("failed to update project: " ++ e), kube₁, s₃, tr₁ ++ [.sentryUpdate]⟩

/-- reconcilerSet.ClientKey of package sentrycontroller, including the
Secret projection. -/
def ClientKey {σ : Type} (c : Client σ) (orgSlug : String) (req : ObjKey)
    (kube : KubeState) (s : σ) : RecOut σ :=
  match kube.clientKeys req with
  | none => ⟨.ok (), kube, s, []⟩
  | some inst =>
    match c.getOrganization orgSlug s with
    | (.error e, s₁) => ⟨.error ("failed to get organization: " ++ e), kube, s₁, []⟩
    | (.ok org, s₁) =>
      if inst.meta.deletionTimestamp then
        if hasFinalizer inst.meta.finalizers = false then
          ⟨.ok (), kube, s₁, []⟩
        else
          let finish : σ → List Ev → RecOut σ := fun s₂ tr =>
            let inst₁ : v1alpha1.ClientKey :=
              { inst with
                status := ⟨"", ""⟩
                meta := { inst.meta with finalizers := removeFinalizer inst.meta.finalizers } }
            ⟨.ok (), kube.putClientKey inst₁, s₂, tr ++ [.kubeUpdate inst₁.meta.finalizers]⟩
          if inst.status.id = "" then
            finish s₁ []
          else
            match c.deleteClientKey org.slug inst.status.project inst.status.id s₁ with
            | ((resp, some e), s₂) =>
              if resp.statusCode ≠ 404 then
                ⟨.error ("failed to delete client key: " ++ e), kube, s₂, [.sentryDelete]⟩
              else
                finish s₂ [.sentryDelete]
            | ((_, none), s₂) => finish s₂ [.sentryDelete]
      else
        let ensured : KubeState × v1alpha1.ClientKey × List Ev :=
          if hasFinalizer inst.meta.finalizers then (kube, inst, [])
          else
            let inst₁ : v1alpha1.ClientKey :=
              { inst with
                meta := { inst.meta with finalizers := inst.meta.finalizers ++ [finalizerName] } }
            (kube.putClientKey inst₁, inst₁, [Ev.kubeUpdate inst₁.meta.finalizers])
        let kube₁ := ensured.1
        let inst₁ := ensured.2.1
        let tr₁ := ensured.2.2
        match kube₁.projects (inst₁.spec.projectRef.ns, inst₁.spec.projectRef.name) with
        | none =>
          ⟨.error "failed to get project referenced in projectRef", kube₁, s₁, tr₁⟩
        | some kubeProj =>
          -- resolve the key: create it when status.id is empty, otherwise
          -- locate it among the project's keys by the stored id
          let resolved : Except (String × σ)
              (Sentry.ClientKey × v1alpha1.ClientKey × KubeState × σ × List Ev) :=
            if inst₁.status.id = "" then
              match c.createClientKey org.slug kubeProj.status.slug inst₁.spec.name s₁ with
              | (.error e, s₂) => .error ("failed to create client key: " ++ e, s₂)
              | (.ok key, s₂) =>
                let inst₂ : v1alpha1.ClientKey :=
                  { inst₁ with status := ⟨key.id, kubeProj.status.slug⟩ }
                .ok (key, inst₂, kube₁.putClientKey inst₂, s₂,
                  tr₁ ++ [.sentryCreate, .kubeUpdate inst₂.meta.finalizers])
            else
              match c.getClientKeys org.slug kubeProj.status.slug s₁ with
              | (.error e, s₂) => .error (e, s₂)
              | (.ok keys, s₂) =>
                match keys.find? (fun k => k.id == inst₁.status.id) with
                | some key => .ok (key, inst₁, kube₁, s₂, tr₁)
                | none => .error ("key not found", s₂)
          match resolved with
          | .error (e, s₂) => ⟨.error e, kube₁, s₂, tr₁⟩
          | .ok (key, inst₂, kube₂, s₂, tr₂) =>
            let afterRename : Except (String × σ × List Ev) (σ × List Ev) :=
              if key.name = inst₂.spec.name then .ok (s₂, tr₂)
              else
                match c.updateClientKeyName org.slug kubeProj.status.slug
                    inst₂.status.id inst₂.spec.name s₂ with
                | (none, s₃) => .ok (s₃, tr₂ ++ [.sentryUpdate])
                | (some e, s₃) =>
                  .error ("failed to rename client key: " ++ e, s₃, tr₂ ++ [.sentryUpdate])
            match afterRename with
            | .error (e, s₃, tr₃) => ⟨.error e, kube₂, s₃, tr₃⟩
            | .ok (s₃, tr₃) =>
              let secret : Secret :=
                { ns := inst₂.meta.ns
                  name := inst₂.meta.name
                  data :=
                    { dsnPublic := key.dsn.public
                      dsnSecret := key.dsn.secret
                      dsnCsp := key.dsn.csp }
                  ownerRef := some inst₂.meta.key }
              match kube₂.secrets (secret.ns, secret.name) with
              | none =>
                ⟨.ok (), kube₂.putSecret secret, s₃, tr₃ ++ [.secretCreate]⟩
              | some found =>
                if found.data = secret.data then ⟨.ok (), kube₂, s₃, tr₃⟩
                else
                  ⟨.ok (), kube₂.putSecret { found with data := secret.data }, s₃,
                    tr₃ ++ [.secretUpdate]⟩

end reconcilerSet

/-! ### Concrete states used by scenario theorems, witnesses and
counterexamples -/

/-- The empty object store. -/
def emptyKube : KubeState :=
  ⟨fun _ => none, fun _ => none, fun _ => none, fun _ => none⟩

namespace Ex

open Sentry

/-- A client instance over a unit state used to exercise the
interface-level theorems: organization lookup succeeds, deletes fail with a
500 status, everything else reports an error. -/
def failClient : Client Unit where
  getOrganization := fun _ s => (.ok ⟨"org"⟩, s)
  getTeam := fun _ _ s => (.error "no", s)
  createTeam := fun _ _ _ s => (.error "no", s)
  updateTeamName := fun _ _ _ s => (some "no", s)
  deleteTeam := fun _ _ s => ((⟨500⟩, some "boom"), s)
  getProject := fun _ _ s => (.error "no", s)
  createProject := fun _ _ _ _ s => (.error "no", s)
  updateProjectName := fun _ _ _ s => (some "no", s)
  deleteProject := fun _ _ s => ((⟨500⟩, some "boom"), s)
  getClientKeys := fun _ _ s => (.error "no", s)
  createClientKey := fun _ _ _ s => (.error "no", s)
  updateClientKeyName := fun _ _ _ _ s => (some "no", s)
  deleteClientKey := fun _ _ _ s => ((⟨500⟩, some "boom"), s)

/-- Team object under deletion, finalizer present, external slug recorded. -/
def delTeam : v1alpha1.Team :=
  { meta := ⟨"n", "t", true, [finalizerName]⟩, spec := ⟨"T"⟩, status := ⟨"ts"⟩ }

/-- Project object under deletion, finalizer present, external slug
recorded. -/
def delProj : v1alpha1.Project :=
  { meta := ⟨"n", "p", true, [finalizerName]⟩, spec := ⟨"P", ⟨"n", "t"⟩⟩, status := ⟨"ps"⟩ }

/-- ClientKey object under deletion, finalizer present, external id
recorded. -/
def delKey : v1alpha1.ClientKey :=
  { meta := ⟨"n", "k", true, [finalizerName]⟩, spec := ⟨"K", ⟨"n", "p"⟩⟩, status := ⟨"1", "ps"⟩ }

/-- Store holding the three objects under deletion. -/
def delKube : KubeState :=
  ((emptyKube.putTeam delTeam).putProject delProj).putClientKey delKey

/-- Fake state with the managed organization but no teams, projects or
keys, so that every delete call reports 404 not-found. -/
def fake404 : Fake := ⟨[⟨"org"⟩], [], [], []⟩

/-- Fresh Team object: not under deletion, no finalizer, no status. -/
def newTeam : v1alpha1.Team :=
  { meta := ⟨"n", "t2", false, []⟩, spec := ⟨"T"⟩, status := ⟨""⟩ }

/-- Team object not under deletion that already carries the finalizer. -/
def oldTeam : v1alpha1.Team :=
  { meta := ⟨"n", "t3", false, [finalizerName]⟩, spec := ⟨"T"⟩, status := ⟨"ts"⟩ }

/-- Fresh Project object: not under deletion, no finalizer, no status. -/
def newProj : v1alpha1.Project :=
  { meta := ⟨"n", "p2", false, []⟩, spec := ⟨"P", ⟨"n", "t2"⟩⟩, status := ⟨""⟩ }

/-- Project object not under deletion that already carries the finalizer. -/
def oldProj : v1alpha1.Project :=
  { meta := ⟨"n", "p3", false, [finalizerName]⟩, spec := ⟨"P", ⟨"n", "t3"⟩⟩, status := ⟨"ps"⟩ }

/-- Fresh ClientKey object: not under deletion, no finalizer, no status. -/
def newKey : v1alpha1.ClientKey :=
  { meta := ⟨"n", "k2", false, []⟩, spec := ⟨"K", ⟨"n", "p2"⟩⟩, status := ⟨"", ""⟩ }

/-- ClientKey object not under deletion that already carries the
finalizer. -/
def oldKey : v1alpha1.ClientKey :=
  { meta := ⟨"n", "k3", false, [finalizerName]⟩, spec := ⟨"K", ⟨"n", "p3"⟩⟩, status := ⟨"1", "ps"⟩ }

/-- Store holding the six live objects. -/
def liveKube : KubeState :=
  ((((emptyKube.putTeam newTeam).putTeam oldTeam).putProject newProj).putProject oldProj
    |>.putClientKey newKey).putClientKey oldKey

/-- Scenario state for the ClientKey creation scenario: the organization
and the referenced project are resolvable and the project has no keys. -/
def scFake : Fake :=
  { orgs := [⟨"my-sentry-org"⟩], teams := [], projects := [⟨"my-project", "My Project"⟩],
    clientKeys := [] }

/-- The ClientKey object of the creation scenario: name My Key, a project
reference, no prior status. -/
def scKey : v1alpha1.ClientKey :=
  { meta := ⟨"testing", "sentry-key-1", false, []⟩
    spec := ⟨"My Key", ⟨"testing", "proj"⟩⟩
    status := ⟨"", ""⟩ }

/-- The referenced Project object of the creation scenario, already
resolved to the upstream slug my-project. -/
def scProj : v1alpha1.Project :=
  { meta := ⟨"testing", "proj", false, [finalizerName]⟩
    spec := ⟨"My Project", ⟨"testing", "team"⟩⟩
    status := ⟨"my-project"⟩ }

/-- Object store of the creation scenario. -/
def scKube : KubeState := (emptyKube.putProject scProj).putClientKey scKey

/-- One reconcile attempt of the scenario ClientKey. -/
def scOut : RecOut Fake :=
  reconcilerSet.ClientKey Fake.client "my-sentry-org" ("testing", "sentry-key-1") scKube scFake

/-- Fake state with one project and no keys, used for the key-id
counterexample. -/
def idFake : Fake := ⟨[], [], [⟨"p", "P"⟩], []⟩

/-- State after creating one key in idFake. -/
def idFake1 : Fake := (idFake.createClientKey "p" "a").2

/-- State after deleting that key again. -/
def idFake2 : Fake := (idFake1.deleteClientKey "1").2

/-- Fake state for the duplicate-id counterexample: one stored key already
carries the id 2, which is exactly the id the fake will assign next, with
credentials differing from the fixed triple. -/
def dupFake : Fake :=
  { orgs := [⟨"o"⟩], teams := [], projects := [⟨"my-project", "P"⟩],
    clientKeys := [{ id := "2", name := "Other", dsn := ⟨"x", "y", "z"⟩ }] }

/-- ClientKey object of the duplicate-id counterexample, no prior status. -/
def dupKey : v1alpha1.ClientKey :=
  { meta := ⟨"ns", "k", false, []⟩, spec := ⟨"My Key", ⟨"ns", "p"⟩⟩, status := ⟨"", ""⟩ }

/-- Referenced Project object of the duplicate-id counterexample. -/
def dupProj : v1alpha1.Project :=
  { meta := ⟨"ns", "p", false, [finalizerName]⟩, spec := ⟨"P", ⟨"ns", "t"⟩⟩,
    status := ⟨"my-project"⟩ }

/-- Object store of the duplicate-id counterexample. -/
def dupKube : KubeState := (emptyKube.putProject dupProj).putClientKey dupKey

/-- First reconcile attempt of the duplicate-id counterexample. -/
def dupOut1 : RecOut Fake :=
  reconcilerSet.ClientKey Fake.client "o" ("ns", "k") dupKube dupFake

/-- Second reconcile attempt of the duplicate-id counterexample. -/
def dupOut2 : RecOut Fake :=
  reconcilerSet.ClientKey Fake.client "o" ("ns", "k") dupOut1.kube dupOut1.sentry

/-- Team object with an empty resolved slug, referenced by updProj. -/
def updTeam : v1alpha1.Team :=
  { meta := ⟨"testing", "team", false, [finalizerName]⟩, spec := ⟨"Team"⟩, status := ⟨""⟩ }

/-- Project object already resolved upstream (status.slug set) whose
referenced Team has an empty status.slug. -/
def updProj : v1alpha1.Project :=
  { meta := ⟨"testing", "proj", false, [finalizerName]⟩
    spec := ⟨"My Project", ⟨"testing", "team"⟩⟩
    status := ⟨"my-project"⟩ }

/-- Object store pairing updProj with updTeam. -/
def updKube : KubeState := (emptyKube.putTeam updTeam).putProject updProj

/-- Fake state in which updProj's upstream project exists with the desired
name. -/
def updFake : Fake :=
  { orgs := [⟨"o"⟩], teams := [], projects := [⟨"my-project", "My Project"⟩], clientKeys := [] }

/-- Reconcile attempt of updProj. -/
def updOut : RecOut Fake :=
  reconcilerSet.Project Fake.client "o" ("testing", "proj") updKube updFake

end Ex

/-! ### Helper lemmas -/

theorem toDigitsCore_length_gt (b : Nat) :
    ∀ (f n : Nat) (l : List Char), l.length < (Nat.toDigitsCore b (f + 1) n l).length := by
  intro f
  induction f with
  | zero =>
    intro n l
    simp only [Nat.toDigitsCore]
    split <;> simp
  | succ f ih =>
    intro n l
    simp only [Nat.toDigitsCore]
    split
    · simp
    · exact Nat.lt_trans (by simp) (ih (n / b) (Nat.digitChar (n % b) :: l))

/-- The decimal representation of a natural number is never the empty
string. -/
theorem natToString_ne_empty (n : Nat) : toString n ≠ "" := by
  have h : ([] : List Char).length < (Nat.toDigits 10 n).length :=
    toDigitsCore_length_gt 10 n n []
  intro he
  have : (Nat.toDigits 10 n).asString = "" := he
  have hdata : (Nat.toDigits 10 n) = [] := congrArg String.data this
  rw [hdata] at h
  exact Nat.lt_irrefl 0 h

/-- Renaming the first project with a given slug preserves the slug
sequence. -/
theorem setProjectName_map_slug :
    ∀ (ps : List Sentry.Project) (slug name : String) (ps₁ : List Sentry.Project),
      Sentry.setProjectName ps slug name = some ps₁ →
      ps₁.map Sentry.Project.slug = ps.map Sentry.Project.slug := by
  intro ps
  induction ps with
  | nil => intro slug name ps₁ h; simp [Sentry.setProjectName] at h
  | cons p ps ih =>
    intro slug name ps₁ h
    simp only [Sentry.setProjectName] at h
    split at h
    · cases h; simp
    · cases hrec : Sentry.setProjectName ps slug name with
      | none => rw [hrec] at h; cases h
      | some ps₂ =>
        rw [hrec] at h
        cases h
        simp [ih slug name ps₂ hrec]

/-- find? on an appended list skips a prefix on which the predicate fails
everywhere. -/
theorem find?_append_right {α : Type} (p : α → Bool) (l₁ l₂ : List α)
    (h : ∀ a ∈ l₁, p a = false) : (l₁ ++ l₂).find? p = l₂.find? p := by
  induction l₁ with
  | nil => rfl
  | cons a t ih =>
    simp only [List.cons_append, List.find?]
    rw [h a (by simp)]
    exact ih (fun x hx => h x (by simp [hx]))

/-! ### Claim theorems -/

/-- C6 (amended): hasFinalizer tests membership by exact string match
against the fixed marker constant; removeFinalizer removes every occurrence
of the marker (which coincides with removing the single first occurrence on
duplicate-free finalizer lists), keeps every other entry with its
multiplicity, collapses to the empty list when nothing else remains, and is
idempotent; on a list without the marker it is a no-op. -/
theorem c6_finalizer_helpers :
    (∀ l : List String, hasFinalizer l = true ↔ finalizerName ∈ l) ∧
    (∀ l : List String, finalizerName ∉ removeFinalizer l) ∧
    (∀ (l : List String) (x : String), x ≠ finalizerName →
      (removeFinalizer l).count x = l.count x) ∧
    (∀ l : List String, removeFinalizer (removeFinalizer l) = removeFinalizer l) ∧
    (∀ l : List String, hasFinalizer l = false → removeFinalizer l = l) ∧
    (∀ l : List String, l.Nodup → removeFinalizer l = l.erase finalizerName) := by
  refine ⟨?_, ?_, ?_, ?_, ?_, ?_⟩
  · intro l
    simp [hasFinalizer, List.any_eq_true]
  · intro l
    simp [removeFinalizer, List.mem_filter]
  · intro l x hx
    induction l with
    | nil => rfl
    | cons a t ih =>
      by_cases ha : a = finalizerName
      · subst ha
        simpa [removeFinalizer, List.filter_cons, List.count_cons, Ne.symm hx] using ih
      · have hbne : (a != finalizerName) = true := by simp [bne_iff_ne, ha]
        simp only [removeFinalizer] at ih ⊢
        simp [List.filter_cons, hbne, List.count_cons, ih]
  · intro l
    simp [removeFinalizer, List.filter_filter]
  · intro l h
    apply List.filter_eq_self.mpr
    intro a ha
    have h₂ : ∀ x ∈ l, x ≠ finalizerName := by
      simpa [hasFinalizer, List.any_eq_false] using h
    simp [bne_iff_ne, h₂ a ha]
  · intro l h
    rw [removeFinalizer, h.erase_eq_filter]

/-- C6 counterexample: on a list holding the marker twice, removeFinalizer
removes both occurrences, not exactly the first one. -/
theorem c6_counterexample :
    removeFinalizer [finalizerName, finalizerName] = [] ∧
    ([finalizerName, finalizerName] : List String).erase finalizerName = [finalizerName] := by
  exact ⟨rfl, by decide⟩

/-- C6 witness: the hypothesis-bearing parts of the helper theorem applied
at concrete lists. -/
theorem c6_witness :
    ((removeFinalizer [finalizerName, "a"]).count "a"
      = ([finalizerName, "a"] : List String).count "a") ∧
    removeFinalizer ["b"] = ["b"] ∧
    removeFinalizer ["a", finalizerName]
      = (["a", finalizerName] : List String).erase finalizerName :=
  ⟨c6_finalizer_helpers.2.2.1 [finalizerName, "a"] "a" (by decide),
   c6_finalizer_helpers.2.2.2.2.1 ["b"] (by decide),
   c6_finalizer_helpers.2.2.2.2.2 ["a", finalizerName] (by decide)⟩

/-- C10: GetClientKeys on the fake returns the entire stored key sequence
whenever a project with the given slug exists, with no filtering of keys by
project. -/
theorem c10_getClientKeys_unfiltered (s : Sentry.Fake) (proj : String)
    (h : ∃ p ∈ s.projects, p.slug = proj) :
    s.getClientKeys proj = .ok s.clientKeys := by
  obtain ⟨p, hp, he⟩ := h
  unfold Sentry.Fake.getClientKeys
  rw [if_pos]
  exact List.any_eq_true.mpr ⟨p, hp, by simp [he]⟩

/-- C10 witness: a fake holding one project and two keys returns both keys
for that project. -/
theorem c10_witness :
    Sentry.Fake.getClientKeys
      ⟨[], [], [⟨"p", "P"⟩], [⟨"1", "a", ⟨"s", "u", "c"⟩⟩, ⟨"2", "b", ⟨"s", "u", "c"⟩⟩]⟩ "p"
      = .ok [⟨"1", "a", ⟨"s", "u", "c"⟩⟩, ⟨"2", "b", ⟨"s", "u", "c"⟩⟩] :=
  c10_getClientKeys_unfiltered _ "p" ⟨⟨"p", "P"⟩, by decide, rfl⟩

/-- C9 counterexample: key ids are not monotonically increasing across
create and delete sequences; after creating key id 1 in an empty fake and
deleting it, the next create assigns id 1 again, reusing a previously
assigned id. -/
theorem c9_counterexample :
    (Ex.idFake.createClientKey "p" "a").1
      = .ok { id := "1", name := "a", dsn := ⟨"secret", "public", "csp"⟩ } ∧
    Ex.idFake2.clientKeys = [] ∧
    (Ex.idFake2.createClientKey "p" "b").1
      = .ok { id := "1", name := "b", dsn := ⟨"secret", "public", "csp"⟩ } :=
  ⟨rfl, rfl, rfl⟩

/-- C9 (amended): a newly created key receives the id (number of currently
stored keys) + 1 and is appended to the stored sequence; ids therefore
increase strictly along create-only sequences but can be reused after a
deletion. -/
theorem c9_amended_key_id_assignment (s s₁ : Sentry.Fake) (proj name : String)
    (k : Sentry.ClientKey)
    (h : s.createClientKey proj name = (.ok k, s₁)) :
    k.id = toString (s.clientKeys.length + 1) ∧
    s₁.clientKeys = s.clientKeys ++ [k] ∧
    s₁.clientKeys.length = s.clientKeys.length + 1 := by
  unfold Sentry.Fake.createClientKey at h
  by_cases hp : s.projects.any (fun p => p.slug == proj) = true
  · rw [if_pos hp] at h
    obtain ⟨h₁, h₂⟩ := Prod.mk.injEq .. ▸ h
    cases h₁
    subst h₂
    simp
  · rw [if_neg hp] at h
    cases h

/-- C9 witness: the amended assignment rule evaluated on a fake with one
project and no stored keys. -/
theorem c9_witness :
    ((Ex.idFake.createClientKey "p" "a").2).clientKeys
      = Ex.idFake.clientKeys ++ [{ id := "1", name := "a", dsn := ⟨"secret", "public", "csp"⟩ }] :=
  (c9_amended_key_id_assignment Ex.idFake (Ex.idFake.createClientKey "p" "a").2 "p" "a"
    { id := "1", name := "a", dsn := ⟨"secret", "public", "csp"⟩ } rfl).2.1

/-- C5: reconciling the scenario ClientKey (name My Key, project reference
resolvable to slug my-project, no prior status, no pre-existing upstream
keys) creates exactly one upstream key with id 1, sets status to id 1 and
project my-project, and writes the Secret with the fixed credential
triple under the dsn data keys. -/
theorem c5_clientkey_creation_scenario :
    Ex.scOut.res = .ok () ∧
    Ex.scOut.sentry.clientKeys
      = [{ id := "1", name := "My Key", dsn := ⟨"secret", "public", "csp"⟩ }] ∧
    (Ex.scOut.kube.clientKeys ("testing", "sentry-key-1")).map (fun i => i.status)
      = some ⟨"1", "my-project"⟩ ∧
    Ex.scOut.kube.secrets ("testing", "sentry-key-1")
      = some { ns := "testing", name := "sentry-key-1",
               data := ⟨"public", "secret", "csp"⟩,
               ownerRef := some ("testing", "sentry-key-1") } :=
  ⟨rfl, rfl, rfl, rfl⟩

/-- C7 counterexample: a Project whose referenced Team exists in the store
with an empty status.slug, but whose own status.slug is already set to an
existing upstream project with the desired name, reconciles without any
error (the claim demands a dependency failure for every such Project). -/
theorem c7_counterexample :
    Ex.updKube.teams ("testing", "team") = some Ex.updTeam ∧
    Ex.updTeam.status.slug = "" ∧
    Ex.updKube.projects ("testing", "proj") = some Ex.updProj ∧
    Ex.updOut.res = .ok () ∧
    Ex.updOut.sentry.projects = Ex.updFake.projects :=
  ⟨rfl, rfl, rfl, rfl, rfl⟩

/-- C7 (amended): for every Project object with an empty status.slug whose
referenced Team object exists in the store but has an empty status.slug,
when no upstream team carries the empty slug, the reconcile attempt fails
(the upstream create rejects the unresolved team slug) and no upstream
project is created. -/
theorem c7_amended_unresolved_team_dependency
    (kube : KubeState) (fake : Sentry.Fake) (orgSlug : String) (req : ObjKey)
    (inst : v1alpha1.Project) (kt : v1alpha1.Team)
    (hk : kube.projects req = some inst)
    (hdel : inst.meta.deletionTimestamp = false)
    (hslug : inst.status.slug = "")
    (ht : kube.teams (inst.spec.teamRef.ns, inst.spec.teamRef.name) = some kt)
    (hts : kt.status.slug = "")
    (hne : fake.teams.any (fun t => t.slug == "") = false) :
    (∃ e, (reconcilerSet.Project Sentry.Fake.client orgSlug req kube fake).res = .error e) ∧
    (reconcilerSet.Project Sentry.Fake.client orgSlug req kube fake).sentry.projects
      = fake.projects := by
  simp only [reconcilerSet.Project, Sentry.Fake.client, hk]
  rcases horg : fake.getOrganization orgSlug with e | o
  · simp only [horg]
    exact ⟨⟨_, rfl⟩, trivial⟩
  · simp only [horg, hdel, Bool.false_eq_true, if_false]
    by_cases hfin : hasFinalizer inst.meta.finalizers
    · simp only [hfin, if_true, KubeState.putProject, ht, hslug]
      simp [hts, Sentry.Fake.createProject, hne]
    · simp only [hfin, Bool.false_eq_true, if_false, KubeState.putProject, ht, hslug]
      simp [hts, Sentry.Fake.createProject, hne]

/-- C7 witness: the amended statement evaluated on a concrete fresh Project
whose referenced Team has no resolved slug. -/
theorem c7_witness :
    (∃ e, (reconcilerSet.Project Sentry.Fake.client "o" ("n", "p2")
        Ex.liveKube Ex.fake404).res = .error e) ∧
    (reconcilerSet.Project Sentry.Fake.client "o" ("n", "p2")
        Ex.liveKube Ex.fake404).sentry.projects = Ex.fake404.projects := by
  have h := c7_amended_unresolved_team_dependency Ex.liveKube Ex.fake404 "o" ("n", "p2")
    Ex.newProj Ex.newTeam rfl rfl rfl rfl rfl rfl
  exact h

/-- C8: for every Project object not under deletion whose status.slug is
set, the reconcile attempt never changes any upstream project field other
than the name: the slug sequence of the stored projects is preserved, and
the upstream teams, organizations and client keys are untouched. -/
theorem c8_update_touches_only_project_name
    (kube : KubeState) (fake : Sentry.Fake) (orgSlug : String) (req : ObjKey)
    (inst : v1alpha1.Project)
    (hk : kube.projects req = some inst)
    (hdel : inst.meta.deletionTimestamp = false)
    (hslug : inst.status.slug ≠ "") :
    ((reconcilerSet.Project Sentry.Fake.client orgSlug req kube fake).sentry.projects.map
        Sentry.Project.slug = fake.projects.map Sentry.Project.slug) ∧
    ((reconcilerSet.Project Sentry.Fake.client orgSlug req kube fake).sentry.teams
        = fake.teams) ∧
    ((reconcilerSet.Project Sentry.Fake.client orgSlug req kube fake).sentry.orgs
        = fake.orgs) ∧
    ((reconcilerSet.Project Sentry.Fake.client orgSlug req kube fake).sentry.clientKeys
        = fake.clientKeys) := by
  simp only [reconcilerSet.Project, Sentry.Fake.client, hk]
  rcases horg : fake.getOrganization orgSlug with e | o
  · refine ⟨?_, ?_, ?_, ?_⟩ <;> simp [horg]
  · simp only [horg, hdel, Bool.false_eq_true, if_false]
    by_cases hfin : hasFinalizer inst.meta.finalizers
    all_goals simp only [hfin, if_true, Bool.false_eq_true, if_false, KubeState.putProject]
    all_goals rcases ht : kube.teams (inst.spec.teamRef.ns, inst.spec.teamRef.name) with _ | kt
    all_goals simp only [ht, if_neg hslug]
    all_goals try (refine ⟨?_, ?_, ?_, ?_⟩ <;> trivial)
    all_goals rcases hgp : fake.getProject inst.status.slug with e | proj
    all_goals simp only [hgp]
    all_goals try (refine ⟨?_, ?_, ?_, ?_⟩ <;> trivial)
    all_goals by_cases hname : proj.name = inst.spec.name
    all_goals simp only [hname, if_true, if_false, Sentry.Fake.updateProjectName]
    all_goals try (refine ⟨?_, ?_, ?_, ?_⟩ <;> trivial)
    all_goals rcases hsp : Sentry.setProjectName fake.projects proj.slug inst.spec.name
      with _ | ps
    all_goals simp only [hsp]
    all_goals try (refine ⟨?_, ?_, ?_, ?_⟩ <;> trivial)
    all_goals refine ⟨setProjectName_map_slug fake.projects proj.slug inst.spec.name ps hsp,
      ?_, ?_, ?_⟩
    all_goals trivial

/-- C8 witness: the frame property evaluated on a concrete resolved Project
whose upstream name differs from the desired name. -/
theorem c8_witness :
    ((reconcilerSet.Project Sentry.Fake.client "o" ("testing", "proj")
        Ex.updKube ⟨[⟨"o"⟩], [], [⟨"my-project", "Old Name"⟩], []⟩).sentry.projects.map
        Sentry.Project.slug = [⟨"my-project", "Old Name"⟩].map Sentry.Project.slug) ∧
    ((reconcilerSet.Project Sentry.Fake.client "o" ("testing", "proj")
        Ex.updKube ⟨[⟨"o"⟩], [], [⟨"my-project", "Old Name"⟩], []⟩).sentry.teams = []) ∧
    ((reconcilerSet.Project Sentry.Fake.client "o" ("testing", "proj")
        Ex.updKube ⟨[⟨"o"⟩], [], [⟨"my-project", "Old Name"⟩], []⟩).sentry.orgs = [⟨"o"⟩]) ∧
    ((reconcilerSet.Project Sentry.Fake.client "o" ("testing", "proj")
        Ex.updKube ⟨[⟨"o"⟩], [], [⟨"my-project", "Old Name"⟩], []⟩).sentry.clientKeys = []) :=
  c8_update_touches_only_project_name Ex.updKube ⟨[⟨"o"⟩], [], [⟨"my-project", "Old Name"⟩], []⟩
    "o" ("testing", "proj") Ex.updProj rfl rfl (by decide)

/-- C2: for every Team, Project or ClientKey object under deletion that
carries the finalizer marker and whose recorded external identifier no
longer matches any stored upstream entity (the fake reports a 404 on the
delete call), one reconcile attempt completes the local deletion: the
finalizer marker is removed, the status is cleared, and the attempt
succeeds. -/
theorem c2_delete_404_completes_local_deletion :
    (∀ (kube : KubeState) (fake : Sentry.Fake) (orgSlug : String) (req : ObjKey)
        (inst : v1alpha1.Team) (o : Sentry.Organization),
      kube.teams req = some inst →
      fake.getOrganization orgSlug = .ok o →
      inst.meta.deletionTimestamp = true →
      hasFinalizer inst.meta.finalizers = true →
      inst.status.slug ≠ "" →
      fake.teams.any (fun t => t.slug == inst.status.slug) = false →
      (reconcilerSet.Team Sentry.Fake.client orgSlug req kube fake).res = .ok () ∧
      (reconcilerSet.Team Sentry.Fake.client orgSlug req kube fake).kube.teams
          (inst.meta.ns, inst.meta.name)
        = some { inst with
                  status := ⟨""⟩,
                  meta := { inst.meta with
                            finalizers := removeFinalizer inst.meta.finalizers } }) ∧
    (∀ (kube : KubeState) (fake : Sentry.Fake) (orgSlug : String) (req : ObjKey)
        (inst : v1alpha1.Project) (o : Sentry.Organization),
      kube.projects req = some inst →
      fake.getOrganization orgSlug = .ok o →
      inst.meta.deletionTimestamp = true →
      hasFinalizer inst.meta.finalizers = true →
      inst.status.slug ≠ "" →
      fake.projects.any (fun p => p.slug == inst.status.slug) = false →
      (reconcilerSet.Project Sentry.Fake.client orgSlug req kube fake).res = .ok () ∧
      (reconcilerSet.Project Sentry.Fake.client orgSlug req kube fake).kube.projects
          (inst.meta.ns, inst.meta.name)
        = some { inst with
                  status := ⟨""⟩,
                  meta := { inst.meta with
                            finalizers := removeFinalizer inst.meta.finalizers } }) ∧
    (∀ (kube : KubeState) (fake : Sentry.Fake) (orgSlug : String) (req : ObjKey)
        (inst : v1alpha1.ClientKey) (o : Sentry.Organization),
      kube.clientKeys req = some inst →
      fake.getOrganization orgSlug = .ok o →
      inst.meta.deletionTimestamp = true →
      hasFinalizer inst.meta.finalizers = true →
      inst.status.id ≠ "" →
      fake.clientKeys.any (fun k => k.id == inst.status.id) = false →
      (reconcilerSet.ClientKey Sentry.Fake.client orgSlug req kube fake).res = .ok () ∧
      (reconcilerSet.ClientKey Sentry.Fake.client orgSlug req kube fake).kube.clientKeys
          (inst.meta.ns, inst.meta.name)
        = some { inst with
                  status := ⟨"", ""⟩,
                  meta := { inst.meta with
                            finalizers := removeFinalizer inst.meta.finalizers } }) := by
  refine ⟨?_, ?_, ?_⟩
  · intro kube fake orgSlug req inst o hk horg hdel hfin hslug habs
    simp only [reconcilerSet.Team, Sentry.Fake.client, hk, horg, hdel, hfin, if_true]
    simp [Sentry.Fake.deleteTeam, habs, hslug, KubeState.putTeam, ObjectMeta.key]
  · intro kube fake orgSlug req inst o hk horg hdel hfin hslug habs
    simp only [reconcilerSet.Project, Sentry.Fake.client, hk, horg, hdel, hfin, if_true]
    simp [Sentry.Fake.deleteProject, habs, hslug, KubeState.putProject, ObjectMeta.key]
  · intro kube fake orgSlug req inst o hk horg hdel hfin hid habs
    simp only [reconcilerSet.ClientKey, Sentry.Fake.client, hk, horg, hdel, hfin, if_true]
    simp [Sentry.Fake.deleteClientKey, habs, hid, KubeState.putClientKey, ObjectMeta.key]

/-- C2 witness: the three parts applied to concrete objects under deletion
whose recorded identifiers match nothing in the fake. -/
theorem c2_witness :
    ((reconcilerSet.Team Sentry.Fake.client "org" ("n", "t") Ex.delKube Ex.fake404).res
      = .ok () ∧
     (reconcilerSet.Team Sentry.Fake.client "org" ("n", "t") Ex.delKube Ex.fake404).kube.teams
        ("n", "t")
      = some { Ex.delTeam with
                status := ⟨""⟩,
                meta := { Ex.delTeam.meta with
                          finalizers := removeFinalizer Ex.delTeam.meta.finalizers } }) ∧
    ((reconcilerSet.Project Sentry.Fake.client "org" ("n", "p") Ex.delKube Ex.fake404).res
      = .ok () ∧
     (reconcilerSet.Project Sentry.Fake.client "org" ("n", "p") Ex.delKube
        Ex.fake404).kube.projects ("n", "p")
      = some { Ex.delProj with
                status := ⟨""⟩,
                meta := { Ex.delProj.meta with
                          finalizers := removeFinalizer Ex.delProj.meta.finalizers } }) ∧
    ((reconcilerSet.ClientKey Sentry.Fake.client "org" ("n", "k") Ex.delKube Ex.fake404).res
      = .ok () ∧
     (reconcilerSet.ClientKey Sentry.Fake.client "org" ("n", "k") Ex.delKube
        Ex.fake404).kube.clientKeys ("n", "k")
      = some { Ex.delKey with
                status := ⟨"", ""⟩,
                meta := { Ex.delKey.meta with
                          finalizers := removeFinalizer Ex.delKey.meta.finalizers } }) :=
  ⟨c2_delete_404_completes_local_deletion.1 Ex.delKube Ex.fake404 "org" ("n", "t")
      Ex.delTeam ⟨"org"⟩ rfl rfl rfl rfl (by decide) rfl,
   c2_delete_404_completes_local_deletion.2.1 Ex.delKube Ex.fake404 "org" ("n", "p")
      Ex.delProj ⟨"org"⟩ rfl rfl rfl rfl (by decide) rfl,
   c2_delete_404_completes_local_deletion.2.2 Ex.delKube Ex.fake404 "org" ("n", "k")
      Ex.delKey ⟨"org"⟩ rfl rfl rfl rfl (by decide) rfl⟩

/-- C1: for every Team, Project or ClientKey object under deletion that
still carries the finalizer marker and has a non-empty recorded external
identifier, whenever the upstream delete call fails with a non-404 status,
the reconcile attempt returns an error and leaves the object store - and
hence the object's finalizer list and status - completely unchanged, so
deletion is retried. Stated over an arbitrary client implementation. -/
theorem c1_non404_delete_failure_preserves_object :
    (∀ (σ : Type) (c : Sentry.Client σ) (orgSlug : String) (req : ObjKey)
        (kube : KubeState) (s : σ) (inst : v1alpha1.Team) (o : Sentry.Organization)
        (s₁ : σ) (resp : Sentry.Resp) (e : String) (s₂ : σ),
      kube.teams req = some inst →
      inst.meta.deletionTimestamp = true →
      hasFinalizer inst.meta.finalizers = true →
      inst.status.slug ≠ "" →
      c.getOrganization orgSlug s = (.ok o, s₁) →
      c.deleteTeam o.slug inst.status.slug s₁ = ((resp, some e), s₂) →
      resp.statusCode ≠ 404 →
      (∃ msg, (reconcilerSet.Team c orgSlug req kube s).res = .error msg) ∧
      (reconcilerSet.Team c orgSlug req kube s).kube = kube) ∧
    (∀ (σ : Type) (c : Sentry.Client σ) (orgSlug : String) (req : ObjKey)
        (kube : KubeState) (s : σ) (inst : v1alpha1.Project) (o : Sentry.Organization)
        (s₁ : σ) (resp : Sentry.Resp) (e : String) (s₂ : σ),
      kube.projects req = some inst →
      inst.meta.deletionTimestamp = true →
      hasFinalizer inst.meta.finalizers = true →
      inst.status.slug ≠ "" →
      c.getOrganization orgSlug s = (.ok o, s₁) →
      c.deleteProject o.slug inst.status.slug s₁ = ((resp, some e), s₂) →
      resp.statusCode ≠ 404 →
      (∃ msg, (reconcilerSet.Project c orgSlug req kube s).res = .error msg) ∧
      (reconcilerSet.Project c orgSlug req kube s).kube = kube) ∧
    (∀ (σ : Type) (c : Sentry.Client σ) (orgSlug : String) (req : ObjKey)
        (kube : KubeState) (s : σ) (inst : v1alpha1.ClientKey) (o : Sentry.Organization)
        (s₁ : σ) (resp : Sentry.Resp) (e : String) (s₂ : σ),
      kube.clientKeys req = some inst →
      inst.meta.deletionTimestamp = true →
      hasFinalizer inst.meta.finalizers = true →
      inst.status.id ≠ "" →
      c.getOrganization orgSlug s = (.ok o, s₁) →
      c.deleteClientKey o.slug inst.status.project inst.status.id s₁ = ((resp, some e), s₂) →
      resp.statusCode ≠ 404 →
      (∃ msg, (reconcilerSet.ClientKey c orgSlug req kube s).res = .error msg) ∧
      (reconcilerSet.ClientKey c orgSlug req kube s).kube = kube) := by
  refine ⟨?_, ?_, ?_⟩
  · intro σ c orgSlug req kube s inst o s₁ resp e s₂ hk hdel hfin hslug horg hdc hrc
    simp only [reconcilerSet.Team, hk, horg, hdel, hfin, if_true, hslug, hdc, if_neg, hrc]
    simp [hslug, hrc]
  · intro σ c orgSlug req kube s inst o s₁ resp e s₂ hk hdel hfin hslug horg hdc hrc
    simp only [reconcilerSet.Project, hk, horg, hdel, hfin, if_true, hdc]
    simp [hslug, hrc]
  · intro σ c orgSlug req kube s inst o s₁ resp e s₂ hk hdel hfin hid horg hdc hrc
    simp only [reconcilerSet.ClientKey, hk, horg, hdel, hfin, if_true, hdc]
    simp [hid, hrc]

/-- C1 witness: the three parts applied to concrete objects under deletion
against a client whose delete calls fail with a 500 status. -/
theorem c1_witness :
    ((∃ msg, (reconcilerSet.Team Ex.failClient "o" ("n", "t") Ex.delKube ()).res
        = .error msg) ∧
      (reconcilerSet.Team Ex.failClient "o" ("n", "t") Ex.delKube ()).kube = Ex.delKube) ∧
    ((∃ msg, (reconcilerSet.Project Ex.failClient "o" ("n", "p") Ex.delKube ()).res
        = .error msg) ∧
      (reconcilerSet.Project Ex.failClient "o" ("n", "p") Ex.delKube ()).kube = Ex.delKube) ∧
    ((∃ msg, (reconcilerSet.ClientKey Ex.failClient "o" ("n", "k") Ex.delKube ()).res
        = .error msg) ∧
      (reconcilerSet.ClientKey Ex.failClient "o" ("n", "k") Ex.delKube ()).kube
        = Ex.delKube) :=
  ⟨c1_non404_delete_failure_preserves_object.1 Unit Ex.failClient "o" ("n", "t")
      Ex.delKube () Ex.delTeam ⟨"org"⟩ () ⟨500⟩ "boom" ()
      rfl rfl rfl (by decide) rfl rfl (by decide),
   c1_non404_delete_failure_preserves_object.2.1 Unit Ex.failClient "o" ("n", "p")
      Ex.delKube () Ex.delProj ⟨"org"⟩ () ⟨500⟩ "boom" ()
      rfl rfl rfl (by decide) rfl rfl (by decide),
   c1_non404_delete_failure_preserves_object.2.2 Unit Ex.failClient "o" ("n", "k")
      Ex.delKube () Ex.delKey ⟨"org"⟩ () ⟨500⟩ "boom" ()
      rfl rfl rfl (by decide) rfl rfl (by decide)⟩

/-- Team reconcile on a live object without the marker: the first mutating
effect is the persist of the finalizer-augmented object, and the stored
object ends with exactly the marker appended. -/
theorem team_ensures_finalizer_first
    (σ : Type) (c : Sentry.Client σ) (orgSlug : String) (req : ObjKey)
    (kube : KubeState) (s : σ) (inst : v1alpha1.Team) (o : Sentry.Organization) (s₁ : σ)
    (hk : kube.teams req = some inst)
    (hdel : inst.meta.deletionTimestamp = false)
    (hfin : hasFinalizer inst.meta.finalizers = false)
    (horg : c.getOrganization orgSlug s = (.ok o, s₁)) :
    (∃ rest, (reconcilerSet.Team c orgSlug req kube s).trace
      = Ev.kubeUpdate (inst.meta.finalizers ++ [finalizerName]) :: rest) ∧
    (∃ inst₂, (reconcilerSet.Team c orgSlug req kube s).kube.teams
        (inst.meta.ns, inst.meta.name) = some inst₂ ∧
      inst₂.meta.finalizers = inst.meta.finalizers ++ [finalizerName]) := by
  simp only [reconcilerSet.Team, hk, horg, hdel, Bool.false_eq_true, if_false, hfin,
    KubeState.putTeam, ObjectMeta.key]
  by_cases hs : inst.status.slug = ""
  · rcases hct : c.createTeam o.slug inst.spec.name "" s₁ with ⟨cr, s₂⟩
    cases cr with
    | error e =>
      simp only [hs, if_true, hct]
      exact ⟨⟨_, rfl⟩, ⟨_, rfl, rfl⟩⟩
    | ok team =>
      simp only [hs, if_true, hct]
      exact ⟨⟨_, rfl⟩, ⟨_, rfl, rfl⟩⟩
  · rcases hgt : c.getTeam o.slug inst.status.slug s₁ with ⟨gr, s₂⟩
    cases gr with
    | error e =>
      simp only [hs, if_false, hgt]
      exact ⟨⟨_, rfl⟩, ⟨_, rfl, rfl⟩⟩
    | ok team =>
      by_cases hn : team.name = inst.spec.name
      · simp only [hs, if_false, hgt, hn, if_true]
        exact ⟨⟨_, rfl⟩, ⟨_, rfl, rfl⟩⟩
      · rcases hut : c.updateTeamName o.slug team.slug inst.spec.name s₂ with ⟨ur, s₃⟩
        cases ur with
        | none =>
          simp only [hs, if_false, hgt, hn, hut]
          exact ⟨⟨_, rfl⟩, ⟨_, rfl, rfl⟩⟩
        | some e =>
          simp only [hs, if_false, hgt, hn, hut]
          exact ⟨⟨_, rfl⟩, ⟨_, rfl, rfl⟩⟩

/-- Team reconcile on a live object that already carries the marker leaves
the stored finalizer list unchanged. -/
theorem team_finalizer_idempotent
    (σ : Type) (c : Sentry.Client σ) (orgSlug : String) (req : ObjKey)
    (kube : KubeState) (s : σ) (inst : v1alpha1.Team)
    (hk : kube.teams req = some inst)
    (hdel : inst.meta.deletionTimestamp = false)
    (hfin : hasFinalizer inst.meta.finalizers = true) :
    ∃ inst₂, (reconcilerSet.Team c orgSlug req kube s).kube.teams req = some inst₂ ∧
      inst₂.meta.finalizers = inst.meta.finalizers := by
  simp only [reconcilerSet.Team, hk]
  rcases horg : c.getOrganization orgSlug s with ⟨r, s₁⟩
  cases r with
  | error e =>
    simp only [horg]
    exact ⟨inst, hk, rfl⟩
  | ok o =>
    simp only [horg, hdel, Bool.false_eq_true, if_false, hfin, if_true, KubeState.putTeam]
    by_cases hs : inst.status.slug = ""
    · rcases hct : c.createTeam o.slug inst.spec.name "" s₁ with ⟨cr, s₂⟩
      cases cr with
      | error e =>
        simp only [hs, if_true, hct]
        exact ⟨inst, hk, rfl⟩
      | ok team =>
        simp only [hs, if_true, hct]
        by_cases hq : req = ((inst.meta.ns, inst.meta.name) : ObjKey)
        · exact ⟨{ inst with status := ⟨team.slug⟩ }, by simp [hq, ObjectMeta.key], rfl⟩
        · exact ⟨inst, by simp [ObjectMeta.key, hq, hk], rfl⟩
    · rcases hgt : c.getTeam o.slug inst.status.slug s₁ with ⟨gr, s₂⟩
      cases gr with
      | error e =>
        simp only [hs, if_false, hgt]
        exact ⟨inst, hk, rfl⟩
      | ok team =>
        by_cases hn : team.name = inst.spec.name
        · simp only [hs, if_false, hgt, hn, if_true]
          exact ⟨inst, hk, rfl⟩
        · rcases hut : c.updateTeamName o.slug team.slug inst.spec.name s₂ with ⟨ur, s₃⟩
          cases ur with
          | none =>
            simp only [hs, if_false, hgt, hn, hut]
            exact ⟨inst, hk, rfl⟩
          | some e =>
            simp only [hs, if_false, hgt, hn, hut]
            exact ⟨inst, hk, rfl⟩

/-- Project reconcile on a live object without the marker: the first
mutating effect is the persist of the finalizer-augmented object, and the
stored object ends with exactly the marker appended. -/
theorem project_ensures_finalizer_first
    (σ : Type) (c : Sentry.Client σ) (orgSlug : String) (req : ObjKey)
    (kube : KubeState) (s : σ) (inst : v1alpha1.Project) (o : Sentry.Organization) (s₁ : σ)
    (hk : kube.projects req = some inst)
    (hdel : inst.meta.deletionTimestamp = false)
    (hfin : hasFinalizer inst.meta.finalizers = false)
    (horg : c.getOrganization orgSlug s = (.ok o, s₁)) :
    (∃ rest, (reconcilerSet.Project c orgSlug req kube s).trace
      = Ev.kubeUpdate (inst.meta.finalizers ++ [finalizerName]) :: rest) ∧
    (∃ inst₂, (reconcilerSet.Project c orgSlug req kube s).kube.projects
        (inst.meta.ns, inst.meta.name) = some inst₂ ∧
      inst₂.meta.finalizers = inst.meta.finalizers ++ [finalizerName]) := by
  simp only [reconcilerSet.Project, hk, horg, hdel, Bool.false_eq_true, if_false, hfin,
    KubeState.putProject, ObjectMeta.key]
  rcases ht : kube.teams (inst.spec.teamRef.ns, inst.spec.teamRef.name) with _ | kt
  · simp only [ht]
    exact ⟨⟨_, rfl⟩, ⟨_, rfl, rfl⟩⟩
  · simp only [ht]
    by_cases hs : inst.status.slug = ""
    · rcases hcp : c.createProject o.slug kt.status.slug inst.spec.name "" s₁ with ⟨cr, s₂⟩
      cases cr with
      | error e =>
        simp only [hs, if_true, hcp]
        exact ⟨⟨_, rfl⟩, ⟨_, rfl, rfl⟩⟩
      | ok proj =>
        simp only [hs, if_true, hcp]
        exact ⟨⟨_, rfl⟩, ⟨_, rfl, rfl⟩⟩
    · rcases hgp : c.getProject o.slug inst.status.slug s₁ with ⟨gr, s₂⟩
      cases gr with
      | error e =>
        simp only [hs, if_false, hgp]
        exact ⟨⟨_, rfl⟩, ⟨_, rfl, rfl⟩⟩
      | ok proj =>
        by_cases hn : proj.name = inst.spec.name
        · simp only [hs, if_false, hgp, hn, if_true]
          exact ⟨⟨_, rfl⟩, ⟨_, rfl, rfl⟩⟩
        · rcases hup : c.updateProjectName o.slug proj.slug inst.spec.name s₂ with ⟨ur, s₃⟩
          cases ur with
          | none =>
            simp only [hs, if_false, hgp, hn, hup]
            exact ⟨⟨_, rfl⟩, ⟨_, rfl, rfl⟩⟩
          | some e =>
            simp only [hs, if_false, hgp, hn, hup]
            exact ⟨⟨_, rfl⟩, ⟨_, rfl, rfl⟩⟩

/-- Project reconcile on a live object that already carries the marker
leaves the stored finalizer list unchanged. -/
theorem project_finalizer_idempotent
    (σ : Type) (c : Sentry.Client σ) (orgSlug : String) (req : ObjKey)
    (kube : KubeState) (s : σ) (inst : v1alpha1.Project)
    (hk : kube.projects req = some inst)
    (hdel : inst.meta.deletionTimestamp = false)
    (hfin : hasFinalizer inst.meta.finalizers = true) :
    ∃ inst₂, (reconcilerSet.Project c orgSlug req kube s).kube.projects req = some inst₂ ∧
      inst₂.meta.finalizers = inst.meta.finalizers := by
  simp only [reconcilerSet.Project, hk]
  rcases horg : c.getOrganization orgSlug s with ⟨r, s₁⟩
  cases r with
  | error e =>
    simp only [horg]
    exact ⟨inst, hk, rfl⟩
  | ok o =>
    simp only [horg, hdel, Bool.false_eq_true, if_false, hfin, if_true, KubeState.putProject]
    rcases ht : kube.teams (inst.spec.teamRef.ns, inst.spec.teamRef.name) with _ | kt
    · simp only [ht]
      exact ⟨inst, hk, rfl⟩
    · simp only [ht]
      by_cases hs : inst.status.slug = ""
      · rcases hcp : c.createProject o.slug kt.status.slug inst.spec.name "" s₁ with ⟨cr, s₂⟩
        cases cr with
        | error e =>
          simp only [hs, if_true, hcp]
          exact ⟨inst, hk, rfl⟩
        | ok proj =>
          simp only [hs, if_true, hcp]
          by_cases hq : req = ((inst.meta.ns, inst.meta.name) : ObjKey)
          · exact ⟨{ inst with status := ⟨proj.slug⟩ }, by simp [hq, ObjectMeta.key], rfl⟩
          · exact ⟨inst, by simp [ObjectMeta.key, hq, hk], rfl⟩
      · rcases hgp : c.getProject o.slug inst.status.slug s₁ with ⟨gr, s₂⟩
        cases gr with
        | error e =>
          simp only [hs, if_false, hgp]
          exact ⟨inst, hk, rfl⟩
        | ok proj =>
          by_cases hn : proj.name = inst.spec.name
          · simp only [hs, if_false, hgp, hn, if_true]
            exact ⟨inst, hk, rfl⟩
          · rcases hup : c.updateProjectName o.slug proj.slug inst.spec.name s₂ with ⟨ur, s₃⟩
            cases ur with
            | none =>
              simp only [hs, if_false, hgp, hn, hup]
              exact ⟨inst, hk, rfl⟩
            | some e =>
              simp only [hs, if_false, hgp, hn, hup]
              exact ⟨inst, hk, rfl⟩

/-- ClientKey reconcile on a live object without the marker: the first
mutating effect is the persist of the finalizer-augmented object, and the
stored object ends with exactly the marker appended. -/
theorem clientkey_ensures_finalizer_first
    (σ : Type) (c : Sentry.Client σ) (orgSlug : String) (req : ObjKey)
    (kube : KubeState) (s : σ) (inst : v1alpha1.ClientKey) (o : Sentry.Organization) (s₁ : σ)
    (hk : kube.clientKeys req = some inst)
    (hdel : inst.meta.deletionTimestamp = false)
    (hfin : hasFinalizer inst.meta.finalizers = false)
    (horg : c.getOrganization orgSlug s = (.ok o, s₁)) :
    (∃ rest, (reconcilerSet.ClientKey c orgSlug req kube s).trace
      = Ev.kubeUpdate (inst.meta.finalizers ++ [finalizerName]) :: rest) ∧
    (∃ inst₂, (reconcilerSet.ClientKey c orgSlug req kube s).kube.clientKeys
        (inst.meta.ns, inst.meta.name) = some inst₂ ∧
      inst₂.meta.finalizers = inst.meta.finalizers ++ [finalizerName]) := by
  simp only [reconcilerSet.ClientKey, hk, horg, hdel, Bool.false_eq_true, if_false, hfin,
    KubeState.putClientKey, KubeState.putSecret, ObjectMeta.key]
  rcases href : kube.projects (inst.spec.projectRef.ns, inst.spec.projectRef.name) with _ | kp
  · simp only [href]
    exact ⟨⟨_, rfl⟩, ⟨_, rfl, rfl⟩⟩
  · simp only [href]
    by_cases hid : inst.status.id = ""
    · rcases hck : c.createClientKey o.slug kp.status.slug inst.spec.name s₁ with ⟨cr, s₂⟩
      cases cr with
      | error e =>
        simp only [hid, if_true, hck]
        exact ⟨⟨_, rfl⟩, ⟨_, rfl, rfl⟩⟩
      | ok key =>
        simp only [hid, if_true, hck]
        by_cases hn : key.name = inst.spec.name
        all_goals simp only [hn, if_true, if_false]
        case pos =>
          rcases hsec : kube.secrets (inst.meta.ns, inst.meta.name) with _ | found
          · simp only [hsec]
            exact ⟨⟨_, rfl⟩, ⟨_, rfl, rfl⟩⟩
          · simp only [hsec]
            by_cases hd : found.data = ⟨key.dsn.public, key.dsn.secret, key.dsn.csp⟩
            · simp only [hd, if_true]
              exact ⟨⟨_, rfl⟩, ⟨_, rfl, rfl⟩⟩
            · simp only [hd, if_false]
              exact ⟨⟨_, rfl⟩, ⟨_, rfl, rfl⟩⟩
        case neg =>
          rcases hu : c.updateClientKeyName o.slug kp.status.slug key.id inst.spec.name s₂
            with ⟨ur, s₃⟩
          cases ur with
          | some e =>
            simp only [hu]
            exact ⟨⟨_, rfl⟩, ⟨_, rfl, rfl⟩⟩
          | none =>
            simp only [hu]
            rcases hsec : kube.secrets (inst.meta.ns, inst.meta.name) with _ | found
            · simp only [hsec]
              exact ⟨⟨_, rfl⟩, ⟨_, rfl, rfl⟩⟩
            · simp only [hsec]
              by_cases hd : found.data = ⟨key.dsn.public, key.dsn.secret, key.dsn.csp⟩
              · simp only [hd, if_true]
                exact ⟨⟨_, rfl⟩, ⟨_, rfl, rfl⟩⟩
              · simp only [hd, if_false]
                exact ⟨⟨_, rfl⟩, ⟨_, rfl, rfl⟩⟩
    · rcases hgk : c.getClientKeys o.slug kp.status.slug s₁ with ⟨gr, s₂⟩
      cases gr with
      | error e =>
        simp only [hid, if_false, hgk]
        exact ⟨⟨_, rfl⟩, ⟨_, rfl, rfl⟩⟩
      | ok keys =>
        rcases hfd : keys.find? (fun k => k.id == inst.status.id) with _ | key
        · simp only [hid, if_false, hgk, hfd]
          exact ⟨⟨_, rfl⟩, ⟨_, rfl, rfl⟩⟩
        · simp only [hid, if_false, hgk, hfd]
          by_cases hn : key.name = inst.spec.name
          all_goals simp only [hn, if_true, if_false]
          case pos =>
            rcases hsec : kube.secrets (inst.meta.ns, inst.meta.name) with _ | found
            · simp only [hsec]
              exact ⟨⟨_, rfl⟩, ⟨_, rfl, rfl⟩⟩
            · simp only [hsec]
              by_cases hd : found.data = ⟨key.dsn.public, key.dsn.secret, key.dsn.csp⟩
              · simp only [hd, if_true]
                exact ⟨⟨_, rfl⟩, ⟨_, rfl, rfl⟩⟩
              · simp only [hd, if_false]
                exact ⟨⟨_, rfl⟩, ⟨_, rfl, rfl⟩⟩
          case neg =>
            rcases hu : c.updateClientKeyName o.slug kp.status.slug inst.status.id
              inst.spec.name s₂ with ⟨ur, s₃⟩
            cases ur with
            | some e =>
              simp only [hu]
              exact ⟨⟨_, rfl⟩, ⟨_, rfl, rfl⟩⟩
            | none =>
              simp only [hu]
              rcases hsec : kube.secrets (inst.meta.ns, inst.meta.name) with _ | found
              · simp only [hsec]
                exact ⟨⟨_, rfl⟩, ⟨_, rfl, rfl⟩⟩
              · simp only [hsec]
                by_cases hd : found.data = ⟨key.dsn.public, key.dsn.secret, key.dsn.csp⟩
                · simp only [hd, if_true]
                  exact ⟨⟨_, rfl⟩, ⟨_, rfl, rfl⟩⟩
                · simp only [hd, if_false]
                  exact ⟨⟨_, rfl⟩, ⟨_, rfl, rfl⟩⟩

/-- Reading back any key after storing an object whose finalizer list
matches the one stored under the request key preserves the finalizer
list. -/
theorem clientkey_put_preserves_finalizers (kube : KubeState) (req : ObjKey)
    (inst x : v1alpha1.ClientKey)
    (hk : kube.clientKeys req = some inst)
    (hx : x.meta.finalizers = inst.meta.finalizers) :
    ∃ inst₂, (kube.putClientKey x).clientKeys req = some inst₂ ∧
      inst₂.meta.finalizers = inst.meta.finalizers := by
  by_cases hq : req = x.meta.key
  · exact ⟨x, by simp [KubeState.putClientKey, hq], hx⟩
  · exact ⟨inst, by simp [KubeState.putClientKey, hq, hk], rfl⟩

/-- Secret writes do not touch the stored ClientKey objects. -/
theorem putSecret_clientKeys (kube : KubeState) (s : Secret) :
    (kube.putSecret s).clientKeys = kube.clientKeys := rfl

/-- ClientKey reconcile on a live object that already carries the marker
leaves the stored finalizer list unchanged. -/
theorem clientkey_finalizer_idempotent
    (σ : Type) (c : Sentry.Client σ) (orgSlug : String) (req : ObjKey)
    (kube : KubeState) (s : σ) (inst : v1alpha1.ClientKey)
    (hk : kube.clientKeys req = some inst)
    (hdel : inst.meta.deletionTimestamp = false)
    (hfin : hasFinalizer inst.meta.finalizers = true) :
    ∃ inst₂, (reconcilerSet.ClientKey c orgSlug req kube s).kube.clientKeys req
        = some inst₂ ∧
      inst₂.meta.finalizers = inst.meta.finalizers := by
  simp only [reconcilerSet.ClientKey, hk]
  rcases horg : c.getOrganization orgSlug s with ⟨r, s₁⟩
  cases r with
  | error e =>
    simp only [horg]
    exact ⟨inst, hk, rfl⟩
  | ok o =>
    simp only [horg, hdel, Bool.false_eq_true, if_false, hfin, if_true]
    rcases href : kube.projects (inst.spec.projectRef.ns, inst.spec.projectRef.name) with _ | kp
    · simp only [href]
      exact ⟨inst, hk, rfl⟩
    · simp only [href]
      by_cases hid : inst.status.id = ""
      · rcases hck : c.createClientKey o.slug kp.status.slug inst.spec.name s₁ with ⟨cr, s₂⟩
        cases cr with
        | error e =>
          simp only [hid, if_true, hck]
          exact ⟨inst, hk, rfl⟩
        | ok key =>
          simp only [hid, if_true, hck]
          by_cases hn : key.name = inst.spec.name
          · simp only [hn, if_true]
            rcases hsec : (kube.putClientKey
                { inst with status := ⟨key.id, kp.status.slug⟩ }).secrets
                (inst.meta.ns, inst.meta.name) with _ | found
            · simp only [hsec, putSecret_clientKeys]
              exact clientkey_put_preserves_finalizers kube req inst _ hk rfl
            · simp only [hsec]
              by_cases hd : found.data = ⟨key.dsn.public, key.dsn.secret, key.dsn.csp⟩
              · simp only [hd, if_true]
                exact clientkey_put_preserves_finalizers kube req inst _ hk rfl
              · simp only [hd, if_false, putSecret_clientKeys]
                exact clientkey_put_preserves_finalizers kube req inst _ hk rfl
          · simp only [hn, if_false]
            rcases hu : c.updateClientKeyName o.slug kp.status.slug key.id
                inst.spec.name s₂ with ⟨ur, s₃⟩
            cases ur with
            | some e =>
              simp only [hu]
              exact clientkey_put_preserves_finalizers kube req inst _ hk rfl
            | none =>
              simp only [hu]
              rcases hsec : (kube.putClientKey
                  { inst with status := ⟨key.id, kp.status.slug⟩ }).secrets
                  (inst.meta.ns, inst.meta.name) with _ | found
              · simp only [hsec, putSecret_clientKeys]
                exact clientkey_put_preserves_finalizers kube req inst _ hk rfl
              · simp only [hsec]
                by_cases hd : found.data = ⟨key.dsn.public, key.dsn.secret, key.dsn.csp⟩
                · simp only [hd, if_true]
                  exact clientkey_put_preserves_finalizers kube req inst _ hk rfl
                · simp only [hd, if_false, putSecret_clientKeys]
                  exact clientkey_put_preserves_finalizers kube req inst _ hk rfl
      · rcases hgk : c.getClientKeys o.slug kp.status.slug s₁ with ⟨gr, s₂⟩
        cases gr with
        | error e =>
          simp only [hid, if_false, hgk]
          exact ⟨inst, hk, rfl⟩
        | ok keys =>
          rcases hfd : keys.find? (fun k => k.id == inst.status.id) with _ | key
          · simp only [hid, if_false, hgk, hfd]
            exact ⟨inst, hk, rfl⟩
          · simp only [hid, if_false, hgk, hfd]
            by_cases hn : key.name = inst.spec.name
            · simp only [hn, if_true]
              rcases hsec : kube.secrets (inst.meta.ns, inst.meta.name) with _ | found
              · simp only [hsec, putSecret_clientKeys]
                exact ⟨inst, hk, rfl⟩
              · simp only [hsec]
                by_cases hd : found.data = ⟨key.dsn.public, key.dsn.secret, key.dsn.csp⟩
                · simp only [hd, if_true]
                  exact ⟨inst, hk, rfl⟩
                · simp only [hd, if_false, putSecret_clientKeys]
                  exact ⟨inst, hk, rfl⟩
            · simp only [hn, if_false]
              rcases hu : c.updateClientKeyName o.slug kp.status.slug inst.status.id
                  inst.spec.name s₂ with ⟨ur, s₃⟩
              cases ur with
              | some e =>
                simp only [hu]
                exact ⟨inst, hk, rfl⟩
              | none =>
                simp only [hu]
                rcases hsec : kube.secrets (inst.meta.ns, inst.meta.name) with _ | found
                · simp only [hsec, putSecret_clientKeys]
                  exact ⟨inst, hk, rfl⟩
                · simp only [hsec]
                  by_cases hd : found.data = ⟨key.dsn.public, key.dsn.secret, key.dsn.csp⟩
                  · simp only [hd, if_true]
                    exact ⟨inst, hk, rfl⟩
                  · simp only [hd, if_false, putSecret_clientKeys]
                    exact ⟨inst, hk, rfl⟩

/-- C3: for every Team, Project or ClientKey object not under deletion and
without the finalizer marker, one reconcile attempt appends exactly the
marker to the object's finalizer list and persists it as its very first
mutating effect - in particular before any external create or update call;
for every such object already carrying the marker, a reconcile attempt
leaves the stored finalizer list unchanged. Stated over an arbitrary client
implementation. -/
theorem c3_finalizer_added_once_then_stable :
    (∀ (σ : Type) (c : Sentry.Client σ) (orgSlug : String) (req : ObjKey)
        (kube : KubeState) (s : σ) (inst : v1alpha1.Team) (o : Sentry.Organization) (s₁ : σ),
      kube.teams req = some inst →
      inst.meta.deletionTimestamp = false →
      hasFinalizer inst.meta.finalizers = false →
      c.getOrganization orgSlug s = (.ok o, s₁) →
      (∃ rest, (reconcilerSet.Team c orgSlug req kube s).trace
        = Ev.kubeUpdate (inst.meta.finalizers ++ [finalizerName]) :: rest) ∧
      (∃ inst₂, (reconcilerSet.Team c orgSlug req kube s).kube.teams
          (inst.meta.ns, inst.meta.name) = some inst₂ ∧
        inst₂.meta.finalizers = inst.meta.finalizers ++ [finalizerName])) ∧
    (∀ (σ : Type) (c : Sentry.Client σ) (orgSlug : String) (req : ObjKey)
        (kube : KubeState) (s : σ) (inst : v1alpha1.Team),
      kube.teams req = some inst →
      inst.meta.deletionTimestamp = false →
      hasFinalizer inst.meta.finalizers = true →
      ∃ inst₂, (reconcilerSet.Team c orgSlug req kube s).kube.teams req = some inst₂ ∧
        inst₂.meta.finalizers = inst.meta.finalizers) ∧
    (∀ (σ : Type) (c : Sentry.Client σ) (orgSlug : String) (req : ObjKey)
        (kube : KubeState) (s : σ) (inst : v1alpha1.Project) (o : Sentry.Organization) (s₁ : σ),
      kube.projects req = some inst →
      inst.meta.deletionTimestamp = false →
      hasFinalizer inst.meta.finalizers = false →
      c.getOrganization orgSlug s = (.ok o, s₁) →
      (∃ rest, (reconcilerSet.Project c orgSlug req kube s).trace
        = Ev.kubeUpdate (inst.meta.finalizers ++ [finalizerName]) :: rest) ∧
      (∃ inst₂, (reconcilerSet.Project c orgSlug req kube s).kube.projects
          (inst.meta.ns, inst.meta.name) = some inst₂ ∧
        inst₂.meta.finalizers = inst.meta.finalizers ++ [finalizerName])) ∧
    (∀ (σ : Type) (c : Sentry.Client σ) (orgSlug : String) (req : ObjKey)
        (kube : KubeState) (s : σ) (inst : v1alpha1.Project),
      kube.projects req = some inst →
      inst.meta.deletionTimestamp = false →
      hasFinalizer inst.meta.finalizers = true →
      ∃ inst₂, (reconcilerSet.Project c orgSlug req kube s).kube.projects req = some inst₂ ∧
        inst₂.meta.finalizers = inst.meta.finalizers) ∧
    (∀ (σ : Type) (c : Sentry.Client σ) (orgSlug : String) (req : ObjKey)
        (kube : KubeState) (s : σ) (inst : v1alpha1.ClientKey) (o : Sentry.Organization)
        (s₁ : σ),
      kube.clientKeys req = some inst →
      inst.meta.deletionTimestamp = false →
      hasFinalizer inst.meta.finalizers = false →
      c.getOrganization orgSlug s = (.ok o, s₁) →
      (∃ rest, (reconcilerSet.ClientKey c orgSlug req kube s).trace
        = Ev.kubeUpdate (inst.meta.finalizers ++ [finalizerName]) :: rest) ∧
      (∃ inst₂, (reconcilerSet.ClientKey c orgSlug req kube s).kube.clientKeys
          (inst.meta.ns, inst.meta.name) = some inst₂ ∧
        inst₂.meta.finalizers = inst.meta.finalizers ++ [finalizerName])) ∧
    (∀ (σ : Type) (c : Sentry.Client σ) (orgSlug : String) (req : ObjKey)
        (kube : KubeState) (s : σ) (inst : v1alpha1.ClientKey),
      kube.clientKeys req = some inst →
      inst.meta.deletionTimestamp = false →
      hasFinalizer inst.meta.finalizers = true →
      ∃ inst₂, (reconcilerSet.ClientKey c orgSlug req kube s).kube.clientKeys req
          = some inst₂ ∧
        inst₂.meta.finalizers = inst.meta.finalizers) :=
  ⟨team_ensures_finalizer_first, team_finalizer_idempotent,
   project_ensures_finalizer_first, project_finalizer_idempotent,
   clientkey_ensures_finalizer_first, clientkey_finalizer_idempotent⟩

/-- C3 witness: the six parts applied to concrete live objects with and
without the marker, against the unit test client. -/
theorem c3_witness :
    ((∃ rest, (reconcilerSet.Team Ex.failClient "o" ("n", "t2") Ex.liveKube ()).trace
        = Ev.kubeUpdate ([] ++ [finalizerName]) :: rest) ∧
     (∃ inst₂, (reconcilerSet.Team Ex.failClient "o" ("n", "t2") Ex.liveKube ()).kube.teams
        ("n", "t2") = some inst₂ ∧ inst₂.meta.finalizers = [] ++ [finalizerName])) ∧
    (∃ inst₂, (reconcilerSet.Team Ex.failClient "o" ("n", "t3") Ex.liveKube
        ()).kube.teams ("n", "t3") = some inst₂ ∧
      inst₂.meta.finalizers = Ex.oldTeam.meta.finalizers) ∧
    ((∃ rest, (reconcilerSet.Project Ex.failClient "o" ("n", "p2") Ex.liveKube ()).trace
        = Ev.kubeUpdate ([] ++ [finalizerName]) :: rest) ∧
     (∃ inst₂, (reconcilerSet.Project Ex.failClient "o" ("n", "p2")
        Ex.liveKube ()).kube.projects ("n", "p2") = some inst₂ ∧
       inst₂.meta.finalizers = [] ++ [finalizerName])) ∧
    (∃ inst₂, (reconcilerSet.Project Ex.failClient "o" ("n", "p3") Ex.liveKube
        ()).kube.projects ("n", "p3") = some inst₂ ∧
      inst₂.meta.finalizers = Ex.oldProj.meta.finalizers) ∧
    ((∃ rest, (reconcilerSet.ClientKey Ex.failClient "o" ("n", "k2") Ex.liveKube ()).trace
        = Ev.kubeUpdate ([] ++ [finalizerName]) :: rest) ∧
     (∃ inst₂, (reconcilerSet.ClientKey Ex.failClient "o" ("n", "k2")
        Ex.liveKube ()).kube.clientKeys ("n", "k2") = some inst₂ ∧
       inst₂.meta.finalizers = [] ++ [finalizerName])) ∧
    (∃ inst₂, (reconcilerSet.ClientKey Ex.failClient "o" ("n", "k3") Ex.liveKube
        ()).kube.clientKeys ("n", "k3") = some inst₂ ∧
      inst₂.meta.finalizers = Ex.oldKey.meta.finalizers) :=
  ⟨c3_finalizer_added_once_then_stable.1 Unit Ex.failClient "o" ("n", "t2") Ex.liveKube ()
      Ex.newTeam ⟨"org"⟩ () rfl rfl rfl rfl,
   c3_finalizer_added_once_then_stable.2.1 Unit Ex.failClient "o" ("n", "t3") Ex.liveKube ()
      Ex.oldTeam rfl rfl rfl,
   c3_finalizer_added_once_then_stable.2.2.1 Unit Ex.failClient "o" ("n", "p2") Ex.liveKube ()
      Ex.newProj ⟨"org"⟩ () rfl rfl rfl rfl,
   c3_finalizer_added_once_then_stable.2.2.2.1 Unit Ex.failClient "o" ("n", "p3")
      Ex.liveKube () Ex.oldProj rfl rfl rfl,
   c3_finalizer_added_once_then_stable.2.2.2.2.1 Unit Ex.failClient "o" ("n", "k2")
      Ex.liveKube () Ex.newKey ⟨"org"⟩ () rfl rfl rfl rfl,
   c3_finalizer_added_once_then_stable.2.2.2.2.2 Unit Ex.failClient "o" ("n", "k3")
      Ex.liveKube () Ex.oldKey rfl rfl rfl⟩

/-- Storing a ClientKey object does not touch the stored projects. -/
theorem putClientKey_projects (kube : KubeState) (x : v1alpha1.ClientKey) :
    (kube.putClientKey x).projects = kube.projects := rfl

/-- Storing a ClientKey object does not touch the stored secrets. -/
theorem putClientKey_secrets (kube : KubeState) (x : v1alpha1.ClientKey) :
    (kube.putClientKey x).secrets = kube.secrets := rfl

/-- Storing a Secret does not touch the stored projects. -/
theorem putSecret_projects (kube : KubeState) (s : Secret) :
    (kube.putSecret s).projects = kube.projects := rfl

/-- A convergent ClientKey reconcile is a no-op: when the object carries
the marker, its stored id resolves to an upstream key whose name already
matches the spec, and the stored Secret holds that key's credential
triple, the attempt changes nothing and issues no mutating call. -/
theorem ck_steady_state
    (kube : KubeState) (fake : Sentry.Fake) (orgSlug : String) (req : ObjKey)
    (inst : v1alpha1.ClientKey) (o : Sentry.Organization) (kp : v1alpha1.Project)
    (k : Sentry.ClientKey) (sec : Secret)
    (hk : kube.clientKeys req = some inst)
    (horg : fake.getOrganization orgSlug = .ok o)
    (hdel : inst.meta.deletionTimestamp = false)
    (hfin : hasFinalizer inst.meta.finalizers = true)
    (hid : inst.status.id ≠ "")
    (href : kube.projects (inst.spec.projectRef.ns, inst.spec.projectRef.name) = some kp)
    (hproj : fake.projects.any (fun p => p.slug == kp.status.slug) = true)
    (hfind : fake.clientKeys.find? (fun c => c.id == inst.status.id) = some k)
    (hname : k.name = inst.spec.name)
    (hsec : kube.secrets (inst.meta.ns, inst.meta.name) = some sec)
    (hdata : sec.data = ⟨k.dsn.public, k.dsn.secret, k.dsn.csp⟩) :
    reconcilerSet.ClientKey Sentry.Fake.client orgSlug req kube fake
      = ⟨.ok (), kube, fake, []⟩ := by
  simp only [reconcilerSet.ClientKey, Sentry.Fake.client, hk, horg, hdel, Bool.false_eq_true,
    if_false, hfin, if_true, href, hid, Sentry.Fake.getClientKeys, hproj, hfind, hname,
    hsec, hdata]

/-- A ClientKey reconcile with empty status.id against a resolvable
organization and project creates exactly one upstream key, persists its id
and the project slug into status, and leaves a Secret holding the fixed
credential triple. -/
theorem ck_create_pass
    (kube : KubeState) (fake : Sentry.Fake) (orgSlug : String) (req : ObjKey)
    (inst : v1alpha1.ClientKey) (o : Sentry.Organization) (kp : v1alpha1.Project)
    (hk : kube.clientKeys req = some inst)
    (horg : fake.getOrganization orgSlug = .ok o)
    (hdel : inst.meta.deletionTimestamp = false)
    (hid : inst.status.id = "")
    (href : kube.projects (inst.spec.projectRef.ns, inst.spec.projectRef.name) = some kp)
    (hproj : fake.projects.any (fun p => p.slug == kp.status.slug) = true)
    (hwf : ∀ s, kube.secrets (inst.meta.ns, inst.meta.name) = some s →
      s.ns = inst.meta.ns ∧ s.name = inst.meta.name) :
    (reconcilerSet.ClientKey Sentry.Fake.client orgSlug req kube fake).res = .ok () ∧
    (reconcilerSet.ClientKey Sentry.Fake.client orgSlug req kube fake).sentry
      = { fake with clientKeys := fake.clientKeys ++
          [⟨toString (fake.clientKeys.length + 1), inst.spec.name,
            ⟨"secret", "public", "csp"⟩⟩] } ∧
    (∃ inst₂, (reconcilerSet.ClientKey Sentry.Fake.client orgSlug req kube
          fake).kube.clientKeys (inst.meta.ns, inst.meta.name) = some inst₂ ∧
      inst₂.spec = inst.spec ∧
      inst₂.status = ⟨toString (fake.clientKeys.length + 1), kp.status.slug⟩ ∧
      inst₂.meta.ns = inst.meta.ns ∧ inst₂.meta.name = inst.meta.name ∧
      inst₂.meta.deletionTimestamp = false ∧
      hasFinalizer inst₂.meta.finalizers = true) ∧
    (reconcilerSet.ClientKey Sentry.Fake.client orgSlug req kube fake).kube.projects
      = kube.projects ∧
    (∃ sec, (reconcilerSet.ClientKey Sentry.Fake.client orgSlug req kube
          fake).kube.secrets (inst.meta.ns, inst.meta.name) = some sec ∧
      sec.data = ⟨"public", "secret", "csp"⟩) := by
  simp only [reconcilerSet.ClientKey, Sentry.Fake.client, hk, horg, hdel, Bool.false_eq_true,
    if_false, if_true]
  by_cases hfin : hasFinalizer inst.meta.finalizers
  all_goals simp only [hfin, if_true, Bool.false_eq_true, if_false, putClientKey_projects,
    putClientKey_secrets, href, hid, Sentry.Fake.createClientKey, hproj]
  all_goals rcases hsec : kube.secrets (inst.meta.ns, inst.meta.name) with _ | found
  all_goals simp only [hsec, putClientKey_projects, putClientKey_secrets,
    putSecret_projects]
  case pos.none =>
    refine ⟨by simp, by simp,
      ⟨{ inst with status := ⟨toString (fake.clientKeys.length + 1), kp.status.slug⟩ },
       ?_, rfl, rfl, rfl, rfl, ?_, ?_⟩,
      by simp [putClientKey_projects, putSecret_projects],
      ⟨⟨inst.meta.ns, inst.meta.name, ⟨"public", "secret", "csp"⟩,
        some (inst.meta.ns, inst.meta.name)⟩, ?_, rfl⟩⟩
    all_goals solve
      | exact hdel
      | exact hfin
      | simp [hdel, putSecret_clientKeys, KubeState.putClientKey, ObjectMeta.key]
      | simp [KubeState.putSecret, putClientKey_secrets, Secret.key, ObjectMeta.key]
  case pos.some =>
    by_cases hd : found.data = (⟨"public", "secret", "csp"⟩ : SecretData)
    · refine ⟨by simp [hd], by simp [hd],
        ⟨{ inst with status := ⟨toString (fake.clientKeys.length + 1), kp.status.slug⟩ },
         ?_, rfl, rfl, rfl, rfl, ?_, ?_⟩,
        by simp [hd, putClientKey_projects, putSecret_projects],
        ⟨found, ?_, hd⟩⟩
      all_goals solve
        | exact hdel
        | exact hfin
        | simp [hdel, hd, putSecret_clientKeys, KubeState.putClientKey, ObjectMeta.key]
        | simp [hd, putClientKey_secrets, hsec]
    · refine ⟨by simp [hd], by simp [hd],
        ⟨{ inst with status := ⟨toString (fake.clientKeys.length + 1), kp.status.slug⟩ },
         ?_, rfl, rfl, rfl, rfl, ?_, ?_⟩,
        by simp [hd, putClientKey_projects, putSecret_projects],
        ⟨{ found with data := ⟨"public", "secret", "csp"⟩ }, ?_, rfl⟩⟩
      all_goals solve
        | exact hdel
        | exact hfin
        | simp [hdel, hd, putSecret_clientKeys, KubeState.putClientKey, ObjectMeta.key]
        | simp [hd, KubeState.putSecret, putClientKey_secrets, Secret.key,
            (hwf found hsec).1, (hwf found hsec).2]
  case neg.none =>
    refine ⟨by simp, by simp,
      ⟨{ inst with
          meta := { inst.meta with finalizers := inst.meta.finalizers ++ [finalizerName] },
          status := ⟨toString (fake.clientKeys.length + 1), kp.status.slug⟩ },
       ?_, rfl, rfl, rfl, rfl, ?_, ?_⟩,
      by simp [putClientKey_projects, putSecret_projects],
      ⟨⟨inst.meta.ns, inst.meta.name, ⟨"public", "secret", "csp"⟩,
        some (inst.meta.ns, inst.meta.name)⟩, ?_, rfl⟩⟩
    all_goals solve
      | exact hdel
      | simp [hasFinalizer]
      | simp [hdel, putSecret_clientKeys, KubeState.putClientKey, ObjectMeta.key]
      | simp [KubeState.putSecret, putClientKey_secrets, Secret.key, ObjectMeta.key]
  case neg.some =>
    by_cases hd : found.data = (⟨"public", "secret", "csp"⟩ : SecretData)
    · refine ⟨by simp [hd], by simp [hd],
        ⟨{ inst with
            meta := { inst.meta with finalizers := inst.meta.finalizers ++ [finalizerName] },
            status := ⟨toString (fake.clientKeys.length + 1), kp.status.slug⟩ },
         ?_, rfl, rfl, rfl, rfl, ?_, ?_⟩,
        by simp [hd, putClientKey_projects, putSecret_projects],
        ⟨found, ?_, hd⟩⟩
      all_goals solve
        | exact hdel
        | simp [hasFinalizer]
        | simp [hdel, hd, putSecret_clientKeys, KubeState.putClientKey, ObjectMeta.key]
        | simp [hd, putClientKey_secrets, hsec]
    · refine ⟨by simp [hd], by simp [hd],
        ⟨{ inst with
            meta := { inst.meta with finalizers := inst.meta.finalizers ++ [finalizerName] },
            status := ⟨toString (fake.clientKeys.length + 1), kp.status.slug⟩ },
         ?_, rfl, rfl, rfl, rfl, ?_, ?_⟩,
        by simp [hd, putClientKey_projects, putSecret_projects],
        ⟨{ found with data := ⟨"public", "secret", "csp"⟩ }, ?_, rfl⟩⟩
      all_goals solve
        | exact hdel
        | simp [hasFinalizer]
        | simp [hdel, hd, putSecret_clientKeys, KubeState.putClientKey, ObjectMeta.key]
        | simp [hd, KubeState.putSecret, putClientKey_secrets, Secret.key,
            (hwf found hsec).1, (hwf found hsec).2]

/-- C4 counterexample: when a stored upstream key already carries the id
the fake assigns next (id 2 here), the first reconcile succeeds and creates
its key, but the second reconcile resolves the stored id to the older
duplicate key and overwrites the Secret - a Secret write on the second
pass, contradicting the claim. -/
theorem c4_counterexample :
    Ex.dupKey.status.id = "" ∧
    Ex.dupOut1.res = .ok () ∧
    Ex.dupOut1.sentry.clientKeys.length = Ex.dupFake.clientKeys.length + 1 ∧
    Ev.secretUpdate ∈ Ex.dupOut2.trace :=
  ⟨rfl, rfl, rfl, by decide⟩

/-- C4 (amended): for every ClientKey object with an empty status.id whose
reconcile succeeds, provided no stored upstream key already carries the id
the fake will assign (id freshness) and stored secrets sit under their own
namespace+name, exactly one upstream key is created and its id and the
resolved project slug are persisted into status in the same attempt; the
second reconcile of the same object is a complete no-op: same upstream
state, same store, no mutating calls at all - in particular zero additional
upstream keys and zero Secret writes. -/
theorem c4_amended_unique_create_then_idempotent
    (kube : KubeState) (fake : Sentry.Fake) (orgSlug : String) (req : ObjKey)
    (inst : v1alpha1.ClientKey)
    (hk : kube.clientKeys req = some inst)
    (hmeta : (inst.meta.ns, inst.meta.name) = req)
    (hdel : inst.meta.deletionTimestamp = false)
    (hid : inst.status.id = "")
    (hfresh : ∀ k ∈ fake.clientKeys, k.id ≠ toString (fake.clientKeys.length + 1))
    (hwf : ∀ s, kube.secrets (inst.meta.ns, inst.meta.name) = some s →
      s.ns = inst.meta.ns ∧ s.name = inst.meta.name)
    (hok : (reconcilerSet.ClientKey Sentry.Fake.client orgSlug req kube fake).res
      = .ok ()) :
    ∃ (k : Sentry.ClientKey) (kp : v1alpha1.Project),
      kube.projects (inst.spec.projectRef.ns, inst.spec.projectRef.name) = some kp ∧
      (reconcilerSet.ClientKey Sentry.Fake.client orgSlug req kube fake).sentry.clientKeys
        = fake.clientKeys ++ [k] ∧
      (∃ inst₂, (reconcilerSet.ClientKey Sentry.Fake.client orgSlug req kube
            fake).kube.clientKeys req = some inst₂ ∧
        inst₂.status = ⟨k.id, kp.status.slug⟩) ∧
      reconcilerSet.ClientKey Sentry.Fake.client orgSlug req
          (reconcilerSet.ClientKey Sentry.Fake.client orgSlug req kube fake).kube
          (reconcilerSet.ClientKey Sentry.Fake.client orgSlug req kube fake).sentry
        = ⟨.ok (),
           (reconcilerSet.ClientKey Sentry.Fake.client orgSlug req kube fake).kube,
           (reconcilerSet.ClientKey Sentry.Fake.client orgSlug req kube fake).sentry,
           []⟩ := by
  subst hmeta
  rcases ho : fake.getOrganization orgSlug with e | o
  · exfalso
    simp only [reconcilerSet.ClientKey, Sentry.Fake.client, hk, ho] at hok
    exact absurd hok (by simp)
  rcases hr : kube.projects (inst.spec.projectRef.ns, inst.spec.projectRef.name) with _ | kp
  · exfalso
    by_cases hfin : hasFinalizer inst.meta.finalizers
    all_goals simp only [reconcilerSet.ClientKey, Sentry.Fake.client, hk, ho, hdel,
      Bool.false_eq_true, if_false, hfin, if_true, putClientKey_projects, hr] at hok
    all_goals exact absurd hok (by simp)
  by_cases hp : fake.projects.any (fun p => p.slug == kp.status.slug) = true
  case neg =>
    exfalso
    rw [Bool.not_eq_true] at hp
    by_cases hfin : hasFinalizer inst.meta.finalizers
    all_goals simp only [reconcilerSet.ClientKey, Sentry.Fake.client, hk, ho, hdel,
      Bool.false_eq_true, if_false, hfin, if_true, putClientKey_projects, hr, hid,
      Sentry.Fake.createClientKey, hp] at hok
    all_goals exact absurd hok (by simp)
  case pos =>
    obtain ⟨hres, hsentry, ⟨inst₂, hread, hspec, hstat, hns, hnm, hdel₂, hfin₂⟩,
      hprojeq, sec, hsecread, hsecdata⟩ :=
      ck_create_pass kube fake orgSlug (inst.meta.ns, inst.meta.name) inst o kp hk ho hdel hid hr hp hwf
    refine ⟨⟨toString (fake.clientKeys.length + 1), inst.spec.name,
      ⟨"secret", "public", "csp"⟩⟩, kp, rfl, by rw [hsentry], ⟨inst₂, hread, hstat⟩, ?_⟩
    refine ck_steady_state _ _ orgSlug (inst.meta.ns, inst.meta.name) inst₂ o kp
        ⟨toString (fake.clientKeys.length + 1), inst.spec.name,
          ⟨"secret", "public", "csp"⟩⟩ sec hread ?_ hdel₂ hfin₂ ?_ ?_ ?_ ?_ ?_ ?_ ?_
    · rw [hsentry]
      exact ho
    · rw [hstat]
      exact natToString_ne_empty (fake.clientKeys.length + 1)
    · rw [hspec, hprojeq]
      exact hr
    · rw [hsentry]
      exact hp
    · rw [hsentry, hstat]
      have hpre : ∀ a ∈ fake.clientKeys,
          (fun c : Sentry.ClientKey =>
            c.id == toString (fake.clientKeys.length + 1)) a = false := by
        intro a ha
        simpa using hfresh a ha
      rw [show ({ fake with clientKeys := fake.clientKeys ++
          [⟨toString (fake.clientKeys.length + 1), inst.spec.name,
            ⟨"secret", "public", "csp"⟩⟩] } : Sentry.Fake).clientKeys
          = fake.clientKeys ++ [⟨toString (fake.clientKeys.length + 1), inst.spec.name,
            ⟨"secret", "public", "csp"⟩⟩] from rfl]
      rw [find?_append_right _ fake.clientKeys _ hpre]
      simp
    · rw [hspec]
    · rw [hns, hnm]
      exact hsecread
    · exact hsecdata

/-- C4 witness: the amended statement evaluated on the concrete creation
scenario state, where the fake holds no keys so freshness is immediate. -/
theorem c4_witness :
    ∃ (k : Sentry.ClientKey) (kp : v1alpha1.Project),
      Ex.scKube.projects
          (Ex.scKey.spec.projectRef.ns, Ex.scKey.spec.projectRef.name) = some kp ∧
      (reconcilerSet.ClientKey Sentry.Fake.client "my-sentry-org"
          ("testing", "sentry-key-1") Ex.scKube Ex.scFake).sentry.clientKeys
        = Ex.scFake.clientKeys ++ [k] ∧
      (∃ inst₂, (reconcilerSet.ClientKey Sentry.Fake.client "my-sentry-org"
            ("testing", "sentry-key-1") Ex.scKube Ex.scFake).kube.clientKeys
          ("testing", "sentry-key-1") = some inst₂ ∧
        inst₂.status = ⟨k.id, kp.status.slug⟩) ∧
      reconcilerSet.ClientKey Sentry.Fake.client "my-sentry-org"
          ("testing", "sentry-key-1")
          (reconcilerSet.ClientKey Sentry.Fake.client "my-sentry-org"
            ("testing", "sentry-key-1") Ex.scKube Ex.scFake).kube
          (reconcilerSet.ClientKey Sentry.Fake.client "my-sentry-org"
            ("testing", "sentry-key-1") Ex.scKube Ex.scFake).sentry
        = ⟨.ok (),
           (reconcilerSet.ClientKey Sentry.Fake.client "my-sentry-org"
             ("testing", "sentry-key-1") Ex.scKube Ex.scFake).kube,
           (reconcilerSet.ClientKey Sentry.Fake.client "my-sentry-org"
             ("testing", "sentry-key-1") Ex.scKube Ex.scFake).sentry,
           []⟩ :=
  c4_amended_unique_create_then_idempotent Ex.scKube Ex.scFake "my-sentry-org"
    ("testing", "sentry-key-1") Ex.scKey rfl rfl rfl rfl
    (by intro k hmem; simp [Ex.scFake] at hmem)
    (by intro s hs₀; simp [Ex.scKube, emptyKube, KubeState.putProject,
      KubeState.putClientKey] at hs₀)
    rfl

end KubeSentry
